import Mathlib

/-!
Shallow embedding of the termail core: the SQLite-backed local Store
(`internal/store/sqlite`) and the sync engine (`internal/app/sync.go`).

Modelling conventions:
* The SQLite database is a `Store` record of tables represented as lists of
  rows.  Primary-key and foreign-key constraints (`_foreign_keys=on` in the
  DSN) are modelled as explicit checks that produce errors, mirroring the
  constraint errors SQLite raises.
* Timestamps are `Nat` (the code stores RFC3339 strings ordered like the
  underlying instants and compares them with SQL `ORDER BY`).
* Go strings are Lean `String`s; the byte slice `s[:100]` is modelled as the
  first 100 characters.
* JSON (de)serialisation of address lists round-trips, so rows store the
  address lists directly.
* `database/sql` transactions (`BeginTx … Rollback/Commit`) are modelled by
  computing the transaction body functionally and returning the original
  store on error (rollback).
* Operations whose partial effects survive a failed pass (each loop
  iteration commits its own transaction) return `Store × Option Err`: the
  store as left behind, plus the error if one occurred.
-/

/-- Error type standing for Go `error` values (the wrapped message). -/
abbrev Err := String

/-- Mirror of `domain.Address`. -/
structure Address where
  name : String
  email : String
deriving DecidableEq, Repr, Inhabited

/-- Mirror of `domain.Email` (the fields the Store persists; `BCC` and
`Attachments` are never written by `UpsertEmail` and are omitted). -/
structure Email where
  id : String
  threadID : String
  fromAddress : Address
  toAddrs : List Address
  ccAddrs : List Address
  subject : String
  body : String
  bodyHTML : String
  date : Nat
  labels : List String
  isRead : Bool
  isStarred : Bool
  inReplyTo : String
deriving DecidableEq, Repr, Inhabited

/-- Mirror of `domain.Label`. -/
structure Label where
  id : String
  accountID : String
  name : String
  type : String
  color : String
deriving DecidableEq, Repr, Inhabited

/-- A row of the `emails` table (columns written by `DB.UpsertEmail`). -/
structure EmailRow where
  id : String
  accountID : String
  threadID : String
  fromAddr : String
  fromName : String
  toAddrs : List Address
  ccAddrs : List Address
  subject : String
  bodyText : String
  bodyHTML : String
  date : Nat
  isRead : Bool
  isStarred : Bool
  inReplyTo : String
deriving DecidableEq, Repr, Inhabited

/-- Mirror of `store.SyncState` (`HistoryID uint64`, `LastSync int64`). -/
structure SyncState where
  accountID : String
  historyID : Nat
  lastSync : Int
deriving DecidableEq, Repr, Inhabited

/-- The local SQLite database: `accounts` (only ids are relevant to the
modelled operations), `emails`, `email_labels` (pairs `(email_id,
label_id)`, primary key both columns, `email_id` cascading from `emails`),
`labels`, and `sync_state`. -/
structure Store where
  accounts : List String
  emails : List EmailRow
  emailLabels : List (String × String)
  labels : List Label
  syncStates : List SyncState
deriving DecidableEq, Repr, Inhabited

/-- Row built by the `INSERT INTO emails … ON CONFLICT(id) DO UPDATE`
statement of `DB.UpsertEmail`. -/
def emailRowOf (e : Email) (accountID : String) : EmailRow :=
  { id := e.id
    accountID := accountID
    threadID := e.threadID
    fromAddr := e.fromAddress.email
    fromName := e.fromAddress.name
    toAddrs := e.toAddrs
    ccAddrs := e.ccAddrs
    subject := e.subject
    bodyText := e.body
    bodyHTML := e.bodyHTML
    date := e.date
    isRead := e.isRead
    isStarred := e.isStarred
    inReplyTo := e.inReplyTo }

/-- Insert-or-replace by primary key `id` (`ON CONFLICT(id) DO UPDATE` keeps
the existing row in place, an insert appends). -/
def upsertRow (rows : List EmailRow) (r : EmailRow) : List EmailRow :=
  if rows.any (fun x => x.id = r.id) then
    rows.map (fun x => if x.id = r.id then r else x)
  else
    rows ++ [r]

/-- The `email_labels` rows of one email. -/
def labelPairsOf (st : Store) (eid : String) : List (String × String) :=
  st.emailLabels.filter (fun pr => pr.1 = eid)

/-- The label ids attached to one email (`SELECT label_id FROM email_labels
WHERE email_id = ?`). -/
def labelsFor (st : Store) (eid : String) : List String :=
  (labelPairsOf st eid).map (fun pr => pr.2)

/-- The `emails` rows with a given id. -/
def rowsOf (st : Store) (id : String) : List EmailRow :=
  st.emails.filter (fun x => x.id = id)

/-- One `INSERT INTO email_labels (email_id, label_id) VALUES (?, ?)`:
fails on a duplicate primary key or a missing referenced email. -/
def insertEmailLabel (st : Store) (eid lid : String) : Except Err Store :=
  if (eid, lid) ∈ st.emailLabels then
    .error "failed to insert email label: UNIQUE constraint failed"
  else if st.emails.any (fun x => x.id = eid) then
    .ok { st with emailLabels := st.emailLabels ++ [(eid, lid)] }
  else
    .error "failed to insert email label: FOREIGN KEY constraint failed"

/-- The insert loop over a label-id list. -/
def insertEmailLabels (st : Store) (eid : String) : List String → Except Err Store
  | [] => .ok st
  | lid :: rest =>
    match insertEmailLabel st eid lid with
    | .ok st' => insertEmailLabels st' eid rest
    | .error e => .error e

/-- One `DELETE FROM email_labels WHERE email_id = ?`. -/
def deleteEmailLabelsFor (st : Store) (eid : String) : Store :=
  { st with emailLabels := st.emailLabels.filter (fun pr => ¬ pr.1 = eid) }

/-- Transaction body of `DB.UpsertEmail`: upsert the row (checking the
`account_id` foreign key), delete the email's label rows, re-insert the
message's label set. -/
def upsertEmailTx (st : Store) (e : Email) (accountID : String) : Except Err Store :=
  if accountID ∈ st.accounts then
    let st1 := { st with emails := upsertRow st.emails (emailRowOf e accountID) }
    insertEmailLabels (deleteEmailLabelsFor st1 e.id) e.id e.labels
  else
    .error "failed to upsert email: FOREIGN KEY constraint failed"

/-- Mirror of `DB.UpsertEmail`: the transaction commits, or rolls back
leaving the store unchanged and reporting the error. -/
def upsertEmail (st : Store) (e : Email) (accountID : String) : Store × Option Err :=
  match upsertEmailTx st e accountID with
  | .ok st' => (st', none)
  | .error er => (st, some er)

/-- Mirror of `DB.DeleteEmail` (`DELETE FROM emails WHERE id = ?`); the
`ON DELETE CASCADE` clause removes the email's `email_labels` rows. -/
def deleteEmail (st : Store) (id : String) : Store :=
  { st with
    emails := st.emails.filter (fun x => ¬ x.id = id)
    emailLabels := st.emailLabels.filter (fun pr => ¬ pr.1 = id) }

/-- Transaction body of `DB.SetEmailLabels`: delete then re-insert. -/
def setEmailLabelsTx (st : Store) (eid : String) (ls : List String) : Except Err Store :=
  insertEmailLabels (deleteEmailLabelsFor st eid) eid ls

/-- Mirror of `DB.SetEmailLabels` (full replace inside one transaction). -/
def setEmailLabels (st : Store) (eid : String) (ls : List String) : Store × Option Err :=
  match setEmailLabelsTx st eid ls with
  | .ok st' => (st', none)
  | .error er => (st, some er)

/-- Email reconstructed by `DB.GetEmail` from a row and its label rows. -/
def emailFromRow (r : EmailRow) (ls : List String) : Email :=
  { id := r.id
    threadID := r.threadID
    fromAddress := { name := r.fromName, email := r.fromAddr }
    toAddrs := r.toAddrs
    ccAddrs := r.ccAddrs
    subject := r.subject
    body := r.bodyText
    bodyHTML := r.bodyHTML
    date := r.date
    labels := ls
    isRead := r.isRead
    isStarred := r.isStarred
    inReplyTo := r.inReplyTo }

/-- Mirror of `DB.GetEmail`: row lookup by id, then the label query. -/
def getEmail (st : Store) (id : String) : Except Err Email :=
  match st.emails.find? (fun x => x.id = id) with
  | none => .error ("failed to get email " ++ id)
  | some r => .ok (emailFromRow r (labelsFor st id))

/-- Mirror of `DB.UpsertLabel` (checking the `account_id` foreign key). -/
def upsertLabel (st : Store) (l : Label) : Except Err Store :=
  if l.accountID ∈ st.accounts then
    .ok { st with labels :=
      if st.labels.any (fun x => x.id = l.id) then
        st.labels.map (fun x => if x.id = l.id then l else x)
      else
        st.labels ++ [l] }
  else
    .error "failed to upsert label: FOREIGN KEY constraint failed"

/-- Mirror of `DB.GetSyncState`: a missing row yields the zero-valued state
with the account id set, never an error. -/
def getSyncState (st : Store) (accountID : String) : SyncState :=
  match st.syncStates.find? (fun s => s.accountID = accountID) with
  | some s => s
  | none => { accountID := accountID, historyID := 0, lastSync := 0 }

/-- Upsert of a `sync_state` row by `account_id`. -/
def upsertSyncRow (rows : List SyncState) (s : SyncState) : List SyncState :=
  if rows.any (fun x => x.accountID = s.accountID) then
    rows.map (fun x => if x.accountID = s.accountID then s else x)
  else
    rows ++ [s]

/-- Mirror of `DB.SetSyncState` (`ON CONFLICT(account_id) DO UPDATE`,
checking the `account_id` foreign key). -/
def setSyncState (st : Store) (s : SyncState) : Except Err Store :=
  if s.accountID ∈ st.accounts then
    .ok { st with syncStates := upsertSyncRow st.syncStates s }
  else
    .error "failed to set sync state: FOREIGN KEY constraint failed"

/-- Mirror of `store.ListEmailOptions`. -/
structure ListEmailOptions where
  accountID : String
  labelID : String
  limit : Nat
  offset : Nat
deriving DecidableEq, Repr, Inhabited

/-- The ascending-by-date order used by `ORDER BY date ASC`. -/
def dateAsc (a b : EmailRow) : Prop := a.date ≤ b.date

/-- The descending-by-date order used by `ORDER BY date DESC`. -/
def dateDesc (a b : EmailRow) : Prop := b.date ≤ a.date

instance : DecidableRel dateAsc := fun a b => inferInstanceAs (Decidable (a.date ≤ b.date))

instance : DecidableRel dateDesc := fun a b => inferInstanceAs (Decidable (b.date ≤ a.date))

instance : IsTotal EmailRow dateAsc := ⟨fun a b => Nat.le_total a.date b.date⟩

instance : IsTrans EmailRow dateAsc := ⟨fun _ _ _ h1 h2 => Nat.le_trans h1 h2⟩

instance : IsTotal EmailRow dateDesc := ⟨fun a b => Nat.le_total b.date a.date⟩

instance : IsTrans EmailRow dateDesc := ⟨fun _ _ _ h1 h2 => Nat.le_trans h2 h1⟩

/-- Row set selected by the `WHERE` clause of `DB.ListEmails` and
`DB.ListThreads`: the account's emails, restricted by the
`JOIN email_labels … el.label_id = ?` when a label filter is given. -/
def labelFiltered (st : Store) (opts : ListEmailOptions) : List EmailRow :=
  if opts.labelID ≠ "" then
    st.emails.filter (fun e =>
      e.accountID = opts.accountID ∧ (e.id, opts.labelID) ∈ st.emailLabels)
  else
    st.emails.filter (fun e => e.accountID = opts.accountID)

/-- SQL `LIMIT ? OFFSET ?` applied the way the Go code appends the clauses
(each only when positive): skip `offset` rows, then return at most `limit`.
(The code would in fact produce invalid SQL for `offset > 0` with
`limit = 0`; that error path is outside the modelled behaviour.) -/
def applyLimitOffset (limit offset : Nat) (l : List α) : List α :=
  let l1 := if offset > 0 then l.drop offset else l
  if limit > 0 then l1.take limit else l1

/-- Mirror of `DB.ListEmails`: filtered rows ordered by `date DESC`. -/
def listEmails (st : Store) (opts : ListEmailOptions) : List EmailRow :=
  applyLimitOffset opts.limit opts.offset
    (List.insertionSort dateDesc (labelFiltered st opts))

/-- Mirror of `domain.Thread` (summary fields included). -/
structure Thread where
  id : String
  subject : String
  messages : List EmailRow
  snippet : String
  lastDate : Nat
  fromAddress : Address
  totalCount : Nat
  hasUnread : Bool
deriving DecidableEq, Repr, Inhabited

/-- Snippet truncation `if len(snippet) > 100 { snippet = snippet[:100] }`. -/
def truncateSnippet (s : String) : String :=
  if s.length > 100 then (s.toList.take 100).asString else s

/-- Mirror of `DB.GetThread`: the account's messages of the thread ordered
by `date ASC`; an empty result set is reported as not-found. -/
def getThread (st : Store) (threadID accountID : String) : Except Err Thread :=
  let msgs := List.insertionSort dateAsc
    (st.emails.filter (fun e => e.threadID = threadID ∧ e.accountID = accountID))
  match msgs with
  | [] => .error ("thread " ++ threadID ++ " not found")
  | first :: rest =>
    let last := (first :: rest).getLast (List.cons_ne_nil first rest)
    .ok { id := threadID
          subject := first.subject
          messages := first :: rest
          snippet := truncateSnippet last.bodyText
          lastDate := last.date
          fromAddress := { name := "", email := "" }
          totalCount := 0
          hasUnread := false }

/-- SQL `MAX(e.date)` over a group of rows. -/
def maxDate (rows : List EmailRow) : Nat :=
  (rows.map (fun r => r.date)).foldr max 0

/-- All emails of a thread, regardless of account or label: the row set the
correlated subqueries of `DB.ListThreads` range over (they constrain only
`e2.thread_id = e.thread_id`). -/
def wholeThreadRows (st : Store) (tid : String) : List EmailRow :=
  st.emails.filter (fun e => e.threadID = tid)

/-- One summary row produced by the grouped `ListThreads` query for a
thread id, over the filtered rows `rows` of the outer query. -/
def threadSummary (st : Store) (rows : List EmailRow) (tid : String) : Thread :=
  let group := rows.filter (fun e => e.threadID = tid)
  let whole := wholeThreadRows st tid
  let firstW := (List.insertionSort dateAsc whole).head?
  let lastW := (List.insertionSort dateDesc whole).head?
  { id := tid
    subject := (firstW.map (fun r => r.subject)).getD ""
    messages := []
    snippet :=
      match lastW with
      | some r => truncateSnippet r.bodyText
      | none => ""
    lastDate := maxDate group
    fromAddress :=
      { name := (firstW.map (fun r => r.fromName)).getD ""
        email := (firstW.map (fun r => r.fromAddr)).getD "" }
    totalCount := group.length
    hasUnread := !(group.all (fun e => e.isRead)) }

/-- The descending-by-last-date order used by `ORDER BY last_date DESC`. -/
def threadDateDesc (a b : Thread) : Prop := b.lastDate ≤ a.lastDate

instance : DecidableRel threadDateDesc :=
  fun a b => inferInstanceAs (Decidable (b.lastDate ≤ a.lastDate))

instance : IsTotal Thread threadDateDesc := ⟨fun a b => Nat.le_total b.lastDate a.lastDate⟩

instance : IsTrans Thread threadDateDesc := ⟨fun _ _ _ h1 h2 => Nat.le_trans h2 h1⟩

/-- Mirror of `DB.ListThreads`: group the filtered rows by thread id,
aggregate each group (the subject/sender/snippet subqueries ranging over
the whole thread), order groups by `last_date DESC`. -/
def listThreads (st : Store) (opts : ListEmailOptions) : List Thread :=
  let rows := labelFiltered st opts
  let tids := (rows.map (fun e => e.threadID)).dedup
  applyLimitOffset opts.limit opts.offset
    (List.insertionSort threadDateDesc (tids.map (threadSummary st rows)))

/-- Mirror of `provider.HistoryEvent`; `provider.HistoryEventType` is a Go
`int` with the four named constants below (`iota`), so the field is a
number and other values are possible. -/
structure HistoryEvent where
  type : Nat
  messageID : String
  labelIDs : List String
deriving DecidableEq, Repr, Inhabited

/-- Mirror of `provider.HistoryMessageAdded`. -/
def historyMessageAdded : Nat := 0

/-- Mirror of `provider.HistoryMessageDeleted`. -/
def historyMessageDeleted : Nat := 1

/-- Mirror of `provider.HistoryLabelsAdded`. -/
def historyLabelsAdded : Nat := 2

/-- Mirror of `provider.HistoryLabelsRemoved`. -/
def historyLabelsRemoved : Nat := 3

/-- The provider operations `SyncService` uses (`provider.EmailProvider`),
modelled as a fixed remote state: each call is a pure function of its
arguments. -/
structure Provider where
  listLabels : Except Err (List Label)
  listMessages : String → Nat → Except Err (List Email × String)
  getMessage : String → Except Err Email
  history : Nat → Except Err (List HistoryEvent × Nat)

/-- One iteration body of the event loop of `SyncService.IncrementalSync`:
the `switch event.Type` statement.  Unknown event types fall through with
no store mutation and no error. -/
def applyEvent (p : Provider) (accountID : String) (st : Store) (ev : HistoryEvent) :
    Store × Option Err :=
  if ev.type = historyMessageAdded then
    match p.getMessage ev.messageID with
    | .error e => (st, some e)
    | .ok msg => upsertEmail st msg accountID
  else if ev.type = historyMessageDeleted then
    (deleteEmail st ev.messageID, none)
  else if ev.type = historyLabelsAdded ∨ ev.type = historyLabelsRemoved then
    match p.getMessage ev.messageID with
    | .error e => (st, some e)
    | .ok msg => setEmailLabels st msg.id msg.labels
  else
    (st, none)

/-- The event loop of `SyncService.IncrementalSync`: events are applied
strictly in the order received; the first failure aborts the rest of the
pass, leaving the effects of the already-applied events in place. -/
def applyEvents (p : Provider) (accountID : String) :
    Store → List HistoryEvent → Store × Option Err
  | st, [] => (st, none)
  | st, ev :: rest =>
    match applyEvent p accountID st ev with
    | (st', none) => applyEvents p accountID st' rest
    | (st', some e) => (st', some e)

/-- The label loop of `SyncService.InitialSync`: each label's `AccountID`
is set to the synced account before the upsert. -/
def upsertLabels (accountID : String) : Store → List Label → Store × Option Err
  | st, [] => (st, none)
  | st, l :: rest =>
    match upsertLabel st { l with accountID := accountID } with
    | .ok st' => upsertLabels accountID st' rest
    | .error e => (st, some e)

/-- The per-page upsert loop of `SyncService.InitialSync`. -/
def upsertEmails (accountID : String) : Store → List Email → Store × Option Err
  | st, [] => (st, none)
  | st, e :: rest =>
    match upsertEmail st e accountID with
    | (st', none) => upsertEmails accountID st' rest
    | (st', some er) => (st', some er)

/-- The paging loop of `SyncService.InitialSync`: fetch pages of at most
100 messages while fewer than `count` have been fetched, upserting each
page, stopping early when the provider returns an empty page token or no
messages. -/
def syncPages (p : Provider) (accountID : String) (st : Store)
    (pageToken : String) (fetched count : Nat) : Store × Option Err :=
  if _hlt : fetched < count then
    let limit := min 100 (count - fetched)
    match p.listMessages pageToken limit with
    | .error e => (st, some e)
    | .ok (msgs, nextToken) =>
      match upsertEmails accountID st msgs with
      | (st', some e) => (st', some e)
      | (st', none) =>
        if nextToken = "" ∨ msgs.isEmpty then (st', none)
        else syncPages p accountID st' nextToken (fetched + msgs.length) count
  else
    (st, none)
termination_by count - fetched
decreasing_by
  rename_i hne
  have hlen : 0 < msgs.length := by
    cases msgs with
    | nil => simp at hne
    | cons a t => simp
  omega


/-- Mirror of `SyncService.InitialSync`: sync labels, page through the
message listing, then persist a `SyncState` whose `HistoryID` is the zero
value (no real cursor is recorded) and whose `LastSync` is the current
time (passed in as `now`). -/
def initialSync (p : Provider) (accountID : String) (count : Nat) (now : Int)
    (st : Store) : Store × Option Err :=
  match p.listLabels with
  | .error e => (st, some e)
  | .ok labels =>
    match upsertLabels accountID st labels with
    | (st1, some e) => (st1, some e)
    | (st1, none) =>
      match syncPages p accountID st1 "" 0 count with
      | (st2, some e) => (st2, some e)
      | (st2, none) =>
        match setSyncState st2 { accountID := accountID, historyID := 0, lastSync := now } with
        | .ok st3 => (st3, none)
        | .error e => (st2, some e)

/-- Mirror of `SyncService.IncrementalSync`: load the sync state; with no
cursor (`HistoryID == 0`) fall back to an `InitialSync` of 500 messages;
otherwise fetch and apply the history events and, only if all of them
applied, persist the new cursor and the current time. -/
def incrementalSync (p : Provider) (accountID : String) (now : Int)
    (st : Store) : Store × Option Err :=
  let state := getSyncState st accountID
  if state.historyID = 0 then
    initialSync p accountID 500 now st
  else
    match p.history state.historyID with
    | .error e => (st, some e)
    | .ok (events, newHistoryID) =>
      match applyEvents p accountID st events with
      | (st', some e) => (st', some e)
      | (st', none) =>
        match setSyncState st' { accountID := accountID, historyID := newHistoryID, lastSync := now } with
        | .ok st'' => (st'', none)
        | .error e => (st', some e)


/-! ### Sync-state lookup after upsert -/

theorem find?_upsertSyncRow (rows : List SyncState) (s : SyncState) :
    (upsertSyncRow rows s).find? (fun x => x.accountID = s.accountID) = some s := by
  unfold upsertSyncRow
  by_cases hany : (rows.any (fun x => decide (x.accountID = s.accountID))) = true
  · rw [if_pos hany]
    induction rows with
    | nil => simp at hany
    | cons a t ih =>
      by_cases ha : a.accountID = s.accountID
      · rw [List.map_cons, List.find?_cons_of_pos _ (by simp [ha])]
        simp [ha]
      · simp only [List.any_cons, Bool.or_eq_true, decide_eq_true_eq, ha, false_or] at hany
        rw [List.map_cons, if_neg ha, List.find?_cons_of_neg _ (by simp [ha])]
        exact ih hany
  · rw [if_neg hany]
    induction rows with
    | nil => rw [List.nil_append, List.find?_cons_of_pos _ (by simp)]
    | cons a t ih =>
      simp only [List.any_cons, Bool.or_eq_true, decide_eq_true_eq, not_or] at hany
      rw [List.cons_append, List.find?_cons_of_neg _ (by simp [hany.1])]
      exact ih (by simpa using hany.2)

theorem getSyncState_setSyncState {st st' : Store} {s : SyncState}
    (h : setSyncState st s = .ok st') :
    getSyncState st' s.accountID = s := by
  unfold setSyncState at h
  by_cases hacct : s.accountID ∈ st.accounts
  · rw [if_pos hacct] at h
    cases h
    unfold getSyncState
    rw [find?_upsertSyncRow]
  · rw [if_neg hacct] at h
    cases h

/-- Upserting the same sync-state row twice is the same as once. -/
theorem upsertSyncRow_idem (rows : List SyncState) (s : SyncState) :
    upsertSyncRow (upsertSyncRow rows s) s = upsertSyncRow rows s := by
  unfold upsertSyncRow
  by_cases hany : (rows.any (fun x => decide (x.accountID = s.accountID))) = true
  · rw [if_pos hany]
    have hany2 : ((rows.map (fun x => if x.accountID = s.accountID then s else x)).any
        (fun x => decide (x.accountID = s.accountID))) = true := by
      simp only [List.any_eq_true, decide_eq_true_eq] at hany ⊢
      obtain ⟨x, hx, hxe⟩ := hany
      exact ⟨s, List.mem_map.2 ⟨x, hx, by simp [hxe]⟩, rfl⟩
    rw [if_pos hany2, List.map_map]
    apply List.map_congr_left
    intro a _
    by_cases ha : a.accountID = s.accountID <;> simp [ha]
  · rw [if_neg hany]
    have hany2 : ((rows ++ [s]).any (fun x => decide (x.accountID = s.accountID))) = true := by
      simp
    rw [if_pos hany2, List.map_append]
    have h1 : rows.map (fun x => if x.accountID = s.accountID then s else x) = rows.map id := by
      apply List.map_congr_left
      intro a ha
      have hne : ¬ a.accountID = s.accountID := by
        intro hc
        exact absurd (List.any_eq_true.2 ⟨a, ha, by simp [hc]⟩) hany
      simp [hne]
    rw [h1, List.map_id]
    simp

/-! ### Frame lemmas: which tables each operation leaves untouched -/

theorem insertEmailLabels_ok_frame {eid : String} {ls : List String} {st st' : Store}
    (h : insertEmailLabels st eid ls = .ok st') :
    st'.accounts = st.accounts ∧ st'.emails = st.emails ∧ st'.labels = st.labels ∧
      st'.syncStates = st.syncStates ∧
      st'.emailLabels = st.emailLabels ++ ls.map (fun l => (eid, l)) := by
  induction ls generalizing st with
  | nil =>
    cases h
    simp [insertEmailLabels]
  | cons lid rest ih =>
    unfold insertEmailLabels insertEmailLabel at h
    by_cases hmem : (eid, lid) ∈ st.emailLabels
    · rw [if_pos hmem] at h
      cases h
    · rw [if_neg hmem] at h
      by_cases hrow : (st.emails.any (fun x => decide (x.id = eid))) = true
      · rw [if_pos hrow] at h
        obtain ⟨ha, hb, hc, hd, he⟩ := ih h
        refine ⟨ha, hb, hc, hd, ?_⟩
        rw [he]
        simp
      · rw [if_neg hrow] at h
        cases h

theorem upsertEmail_frame (st : Store) (e : Email) (acct : String) :
    (upsertEmail st e acct).1.accounts = st.accounts ∧
      (upsertEmail st e acct).1.labels = st.labels ∧
      (upsertEmail st e acct).1.syncStates = st.syncStates := by
  unfold upsertEmail upsertEmailTx
  by_cases hacct : acct ∈ st.accounts
  · rw [if_pos hacct]
    cases hins : insertEmailLabels
        (deleteEmailLabelsFor { st with emails := upsertRow st.emails (emailRowOf e acct) } e.id)
        e.id e.labels with
    | ok st' =>
      obtain ⟨ha, _, hc, hd, _⟩ := insertEmailLabels_ok_frame hins
      simp only [deleteEmailLabelsFor] at ha hc hd
      exact ⟨ha, hc, hd⟩
    | error er => exact ⟨rfl, rfl, rfl⟩
  · rw [if_neg hacct]
    exact ⟨rfl, rfl, rfl⟩

theorem setEmailLabels_frame (st : Store) (eid : String) (ls : List String) :
    (setEmailLabels st eid ls).1.accounts = st.accounts ∧
      (setEmailLabels st eid ls).1.emails = st.emails ∧
      (setEmailLabels st eid ls).1.labels = st.labels ∧
      (setEmailLabels st eid ls).1.syncStates = st.syncStates := by
  unfold setEmailLabels setEmailLabelsTx
  cases hins : insertEmailLabels (deleteEmailLabelsFor st eid) eid ls with
  | ok st' =>
    obtain ⟨ha, hb, hc, hd, _⟩ := insertEmailLabels_ok_frame hins
    simp only [deleteEmailLabelsFor] at ha hb hc hd
    exact ⟨ha, hb, hc, hd⟩
  | error er => exact ⟨rfl, rfl, rfl, rfl⟩

theorem deleteEmail_frame (st : Store) (id : String) :
    (deleteEmail st id).accounts = st.accounts ∧
      (deleteEmail st id).labels = st.labels ∧
      (deleteEmail st id).syncStates = st.syncStates :=
  ⟨rfl, rfl, rfl⟩

theorem applyEvent_frame (p : Provider) (acct : String) (st : Store) (ev : HistoryEvent) :
    (applyEvent p acct st ev).1.accounts = st.accounts ∧
      (applyEvent p acct st ev).1.labels = st.labels ∧
      (applyEvent p acct st ev).1.syncStates = st.syncStates := by
  unfold applyEvent
  by_cases h0 : ev.type = historyMessageAdded
  · rw [if_pos h0]
    cases p.getMessage ev.messageID with
    | error e => exact ⟨rfl, rfl, rfl⟩
    | ok msg => exact upsertEmail_frame st msg acct
  · rw [if_neg h0]
    by_cases h1 : ev.type = historyMessageDeleted
    · rw [if_pos h1]
      exact ⟨rfl, rfl, rfl⟩
    · rw [if_neg h1]
      by_cases h2 : ev.type = historyLabelsAdded ∨ ev.type = historyLabelsRemoved
      · rw [if_pos h2]
        cases p.getMessage ev.messageID with
        | error e => exact ⟨rfl, rfl, rfl⟩
        | ok msg =>
          obtain ⟨ha, _, hc, hd⟩ := setEmailLabels_frame st msg.id msg.labels
          exact ⟨ha, hc, hd⟩
      · rw [if_neg h2]
        exact ⟨rfl, rfl, rfl⟩

theorem applyEvents_frame (p : Provider) (acct : String) (evs : List HistoryEvent) (st : Store) :
    (applyEvents p acct st evs).1.accounts = st.accounts ∧
      (applyEvents p acct st evs).1.labels = st.labels ∧
      (applyEvents p acct st evs).1.syncStates = st.syncStates := by
  induction evs generalizing st with
  | nil => exact ⟨rfl, rfl, rfl⟩
  | cons ev rest ih =>
    unfold applyEvents
    obtain ⟨ha, hb, hc⟩ := applyEvent_frame p acct st ev
    cases hev : applyEvent p acct st ev with
    | mk st' res =>
      rw [hev] at ha hb hc
      cases res with
      | none =>
        obtain ⟨ha2, hb2, hc2⟩ := ih st'
        exact ⟨ha2.trans ha, hb2.trans hb, hc2.trans hc⟩
      | some e => exact ⟨ha, hb, hc⟩

theorem upsertLabel_ok_frame {st st' : Store} {l : Label}
    (h : upsertLabel st l = .ok st') :
    st'.accounts = st.accounts ∧ st'.emails = st.emails ∧
      st'.emailLabels = st.emailLabels ∧ st'.syncStates = st.syncStates := by
  unfold upsertLabel at h
  by_cases hacct : l.accountID ∈ st.accounts
  · rw [if_pos hacct] at h
    cases h
    exact ⟨rfl, rfl, rfl, rfl⟩
  · rw [if_neg hacct] at h
    cases h

theorem upsertLabels_frame (acct : String) (ls : List Label) (st : Store) :
    (upsertLabels acct st ls).1.accounts = st.accounts ∧
      (upsertLabels acct st ls).1.emails = st.emails ∧
      (upsertLabels acct st ls).1.emailLabels = st.emailLabels ∧
      (upsertLabels acct st ls).1.syncStates = st.syncStates := by
  induction ls generalizing st with
  | nil => exact ⟨rfl, rfl, rfl, rfl⟩
  | cons l rest ih =>
    unfold upsertLabels
    cases hup : upsertLabel st { l with accountID := acct } with
    | ok st' =>
      obtain ⟨ha, hb, hc, hd⟩ := upsertLabel_ok_frame hup
      obtain ⟨ha2, hb2, hc2, hd2⟩ := ih st'
      exact ⟨ha2.trans ha, hb2.trans hb, hc2.trans hc, hd2.trans hd⟩
    | error e => exact ⟨rfl, rfl, rfl, rfl⟩

theorem upsertEmails_frame (acct : String) (msgs : List Email) (st : Store) :
    (upsertEmails acct st msgs).1.accounts = st.accounts ∧
      (upsertEmails acct st msgs).1.labels = st.labels ∧
      (upsertEmails acct st msgs).1.syncStates = st.syncStates := by
  induction msgs generalizing st with
  | nil => exact ⟨rfl, rfl, rfl⟩
  | cons e rest ih =>
    unfold upsertEmails
    obtain ⟨ha, hb, hc⟩ := upsertEmail_frame st e acct
    cases hup : upsertEmail st e acct with
    | mk st' res =>
      rw [hup] at ha hb hc
      cases res with
      | none =>
        obtain ⟨ha2, hb2, hc2⟩ := ih st'
        exact ⟨ha2.trans ha, hb2.trans hb, hc2.trans hc⟩
      | some er => exact ⟨ha, hb, hc⟩

theorem syncPages_frame (p : Provider) (acct : String) (st : Store)
    (tok : String) (fetched count : Nat) :
    (syncPages p acct st tok fetched count).1.accounts = st.accounts ∧
      (syncPages p acct st tok fetched count).1.labels = st.labels ∧
      (syncPages p acct st tok fetched count).1.syncStates = st.syncStates := by
  unfold syncPages
  by_cases hlt : fetched < count
  · rw [dif_pos hlt]
    dsimp only
    cases hm : p.listMessages tok (min 100 (count - fetched)) with
    | error e => exact ⟨rfl, rfl, rfl⟩
    | ok pr =>
      obtain ⟨msgs, nextToken⟩ := pr
      dsimp only
      obtain ⟨ha, hb, hc⟩ := upsertEmails_frame acct msgs st
      cases hup : upsertEmails acct st msgs with
      | mk st' res =>
        rw [hup] at ha hb hc
        cases res with
        | some e => exact ⟨ha, hb, hc⟩
        | none =>
          dsimp only
          by_cases hstop : nextToken = "" ∨ msgs.isEmpty
          · rw [if_pos hstop]
            exact ⟨ha, hb, hc⟩
          · rw [if_neg hstop]
            obtain ⟨ha2, hb2, hc2⟩ :=
              syncPages_frame p acct st' nextToken (fetched + msgs.length) count
            exact ⟨ha2.trans ha, hb2.trans hb, hc2.trans hc⟩
  · rw [dif_neg hlt]
    exact ⟨rfl, rfl, rfl⟩
termination_by count - fetched
decreasing_by
  have hlen : 0 < msgs.length := by
    rcases msgs with _ | ⟨a, t⟩
    · simp at hstop
    · simp
  omega

/-! ### C1: bootstrap records the sentinel cursor -/

/-- C1: after a successful `InitialSync`, the persisted `SyncState`'s history
cursor is the sentinel value 0 ("no cursor"), and therefore every subsequent
`IncrementalSync` on that state detects an absent cursor and delegates to
`InitialSync` with the fixed default count of 500 instead of requesting the
history feed. -/
theorem initialSync_records_sentinel_cursor
    (p : Provider) (acct : String) (count : Nat) (now : Int) (st st' : Store)
    (h : initialSync p acct count now st = (st', none)) :
    (getSyncState st' acct).historyID = 0 ∧
      ∀ (p2 : Provider) (now2 : Int),
        incrementalSync p2 acct now2 st' = initialSync p2 acct 500 now2 st' := by
  unfold initialSync at h
  cases hll : p.listLabels with
  | error e => rw [hll] at h; simp at h
  | ok labels =>
    rw [hll] at h
    dsimp only at h
    cases hul : upsertLabels acct st labels with
    | mk st1 res1 =>
      rw [hul] at h
      cases res1 with
      | some e => simp at h
      | none =>
        dsimp only at h
        cases hsp : syncPages p acct st1 "" 0 count with
        | mk st2 res2 =>
          rw [hsp] at h
          cases res2 with
          | some e => simp at h
          | none =>
            dsimp only at h
            cases hss : setSyncState st2 { accountID := acct, historyID := 0, lastSync := now } with
            | error e => rw [hss] at h; simp at h
            | ok st3 =>
              rw [hss] at h
              simp only [Prod.mk.injEq] at h
              obtain ⟨h3, -⟩ := h
              subst h3
              have hgs := getSyncState_setSyncState hss
              refine ⟨by rw [hgs], ?_⟩
              intro p2 now2
              unfold incrementalSync
              rw [hgs]
              rfl

/-- Shared concrete fixtures used to witness the sync theorems. -/
def flatStore : Store :=
  { accounts := ["acc-1"], emails := [], emailLabels := [], labels := [], syncStates := [] }

/-- A provider with no labels, no messages, and an empty history feed. -/
def emptyProvider : Provider :=
  { listLabels := .ok []
    listMessages := fun _ _ => .ok ([], "")
    getMessage := fun _ => .error "message not found"
    history := fun _ => .ok ([], 7) }

/-- Witness for C1 at a concrete bootstrap run. -/
theorem initialSync_records_sentinel_cursor_witness :
    (getSyncState (initialSync emptyProvider "acc-1" 3 42 flatStore).1 "acc-1").historyID = 0 ∧
      ∀ (p2 : Provider) (now2 : Int),
        incrementalSync p2 "acc-1" now2 (initialSync emptyProvider "acc-1" 3 42 flatStore).1 =
          initialSync p2 "acc-1" 500 now2 (initialSync emptyProvider "acc-1" 3 42 flatStore).1 := by
  have h : initialSync emptyProvider "acc-1" 3 42 flatStore =
      ((initialSync emptyProvider "acc-1" 3 42 flatStore).1, none) := by
    have h2 : (initialSync emptyProvider "acc-1" 3 42 flatStore).2 = none := by
      simp [initialSync, upsertLabels, syncPages, upsertEmails, setSyncState, upsertSyncRow,
        flatStore, emptyProvider]
    exact Prod.ext rfl h2
  exact initialSync_records_sentinel_cursor emptyProvider "acc-1" 3 42 flatStore
    (initialSync emptyProvider "acc-1" 3 42 flatStore).1 h

/-! ### Characterising the email upsert -/

theorem find?_upsertRow (rows : List EmailRow) (r : EmailRow) :
    (upsertRow rows r).find? (fun x => x.id = r.id) = some r := by
  unfold upsertRow
  by_cases hany : (rows.any (fun x => decide (x.id = r.id))) = true
  · rw [if_pos hany]
    induction rows with
    | nil => simp at hany
    | cons a t ih =>
      by_cases ha : a.id = r.id
      · rw [List.map_cons, List.find?_cons_of_pos _ (by simp [ha])]
        simp [ha]
      · simp only [List.any_cons, Bool.or_eq_true, decide_eq_true_eq, ha, false_or] at hany
        rw [List.map_cons, if_neg ha, List.find?_cons_of_neg _ (by simp [ha])]
        exact ih hany
  · rw [if_neg hany]
    induction rows with
    | nil => rw [List.nil_append, List.find?_cons_of_pos _ (by simp)]
    | cons a t ih =>
      simp only [List.any_cons, Bool.or_eq_true, decide_eq_true_eq, not_or] at hany
      rw [List.cons_append, List.find?_cons_of_neg _ (by simp [hany.1])]
      exact ih (by simpa using hany.2)

theorem filter_upsertRow_other (rows : List EmailRow) (r : EmailRow) (mid : String)
    (hne : mid ≠ r.id) :
    (upsertRow rows r).filter (fun x => x.id = mid) = rows.filter (fun x => x.id = mid) := by
  unfold upsertRow
  by_cases hany : (rows.any (fun x => decide (x.id = r.id))) = true
  · rw [if_pos hany]
    induction rows with
    | nil => simp
    | cons a t ih =>
      by_cases ha : a.id = r.id
      · have hna : ¬ a.id = mid := by rw [ha]; exact fun hc => hne hc.symm
        have hnr : ¬ r.id = mid := fun hc => hne hc.symm
        simp only [List.map_cons, if_pos ha, List.filter_cons]
        rw [if_neg (by simpa using hnr), if_neg (by simpa using hna)]
        by_cases ht : (t.any (fun x => decide (x.id = r.id))) = true
        · exact ih ht
        · have h1 : t.map (fun x => if x.id = r.id then r else x) = t.map id := by
            apply List.map_congr_left
            intro b hb
            have : ¬ b.id = r.id := fun hc =>
              absurd (List.any_eq_true.2 ⟨b, hb, by simp [hc]⟩) ht
            simp [this]
          rw [h1, List.map_id]
      · simp only [List.map_cons, if_neg ha, List.filter_cons]
        simp only [List.any_cons, Bool.or_eq_true, decide_eq_true_eq, ha, false_or] at hany
        by_cases haid : a.id = mid
        · rw [if_pos (by simpa using haid), if_pos (by simpa using haid), ih hany]
        · rw [if_neg (by simpa using haid), if_neg (by simpa using haid), ih hany]
  · rw [if_neg hany, List.filter_append]
    have hnr : ¬ r.id = mid := fun hc => hne hc.symm
    have hsing : [r].filter (fun x => x.id = mid) = [] := by simp [hnr]
    rw [hsing, List.append_nil]

theorem filter_upsertRow_self (rows : List EmailRow) (r : EmailRow)
    (hnd : (rows.map (fun x => x.id)).Nodup) :
    (upsertRow rows r).filter (fun x => x.id = r.id) = [r] := by
  unfold upsertRow
  by_cases hany : (rows.any (fun x => decide (x.id = r.id))) = true
  · rw [if_pos hany]
    induction rows with
    | nil => simp at hany
    | cons a t ih =>
      simp only [List.map_cons, List.nodup_cons] at hnd
      by_cases ha : a.id = r.id
      · rw [List.map_cons, if_pos ha, List.filter_cons, if_pos (by simp)]
        have h1 : (t.map (fun x => if x.id = r.id then r else x)).filter
            (fun x => x.id = r.id) = [] := by
          rw [List.filter_eq_nil_iff]
          intro b hb
          obtain ⟨c, hc, hcb⟩ := List.mem_map.1 hb
          by_cases hcr : c.id = r.id
          · exfalso
            apply hnd.1
            rw [ha, ← hcr]
            exact List.mem_map_of_mem (fun x => x.id) hc
          · rw [if_neg hcr] at hcb
            subst hcb
            simp [hcr]
        rw [h1]
      · simp only [List.any_cons, Bool.or_eq_true, decide_eq_true_eq, ha, false_or] at hany
        rw [List.map_cons, if_neg ha, List.filter_cons, if_neg (by simpa using ha)]
        exact ih hnd.2 hany
  · rw [if_neg hany, List.filter_append]
    have h0 : rows.filter (fun x => x.id = r.id) = [] := by
      rw [List.filter_eq_nil_iff]
      intro b hb hc
      exact absurd (List.any_eq_true.2 ⟨b, hb, hc⟩) hany
    have h1 : [r].filter (fun x => x.id = r.id) = [r] := by simp
    rw [h0, h1, List.nil_append]

theorem map_id_upsertRow (rows : List EmailRow) (r : EmailRow) (hnd : (rows.map (fun x => x.id)).Nodup) :
    ((upsertRow rows r).map (fun x => x.id)).Nodup := by
  unfold upsertRow
  by_cases hany : (rows.any (fun x => decide (x.id = r.id))) = true
  · rw [if_pos hany, List.map_map]
    have : rows.map ((fun x => x.id) ∘ fun x => if x.id = r.id then r else x) =
        rows.map (fun x => x.id) := by
      apply List.map_congr_left
      intro a _
      by_cases ha : a.id = r.id <;> simp [ha, Function.comp]
    rw [this]
    exact hnd
  · rw [if_neg hany, List.map_append]
    simp only [List.map_cons, List.map_nil]
    rw [List.nodup_append]
    refine ⟨hnd, List.nodup_singleton _, ?_⟩
    intro x hx
    simp only [List.mem_singleton]
    intro hc
    obtain ⟨b, hb, hbe⟩ := List.mem_map.1 hx
    subst hc
    exact absurd (List.any_eq_true.2 ⟨b, hb, by simp [hbe]⟩) hany

theorem filter_pairs_replaced_self (l : List (String × String)) (eid : String) (ls : List String) :
    ((l.filter (fun pr => ¬ pr.1 = eid)) ++ ls.map (fun x => (eid, x))).filter
      (fun pr => pr.1 = eid) = ls.map (fun x => (eid, x)) := by
  rw [List.filter_append]
  have h0 : (l.filter (fun pr => ¬ pr.1 = eid)).filter (fun pr => pr.1 = eid) = [] := by
    rw [List.filter_eq_nil_iff]
    intro pr hpr
    have := List.of_mem_filter hpr
    simp only [decide_not, Bool.not_eq_true', decide_eq_false_iff_not] at this
    simp [this]
  have h1 : (ls.map (fun x => (eid, x))).filter (fun pr => pr.1 = eid) =
      ls.map (fun x => (eid, x)) := by
    rw [List.filter_eq_self]
    intro pr hpr
    obtain ⟨x, _, hx⟩ := List.mem_map.1 hpr
    subst hx
    simp
  rw [h0, h1, List.nil_append]

theorem filter_pairs_replaced_other (l : List (String × String)) (eid : String)
    (ls : List String) (oid : String) (hne : oid ≠ eid) :
    ((l.filter (fun pr => ¬ pr.1 = eid)) ++ ls.map (fun x => (eid, x))).filter
      (fun pr => pr.1 = oid) = l.filter (fun pr => pr.1 = oid) := by
  rw [List.filter_append]
  have h1 : (ls.map (fun x => (eid, x))).filter (fun pr => pr.1 = oid) = [] := by
    rw [List.filter_eq_nil_iff]
    intro pr hpr
    obtain ⟨x, _, hx⟩ := List.mem_map.1 hpr
    subst hx
    simpa using fun hc => hne hc.symm
  rw [h1, List.append_nil, List.filter_filter]
  apply List.filter_congr
  intro pr _
  by_cases hp : pr.1 = oid
  · have hpe : ¬ pr.1 = eid := by rw [hp]; exact hne
    simp [hp, hpe, hne]
  · simp [hp]

theorem upsertEmail_ok_spec {st st' : Store} {e : Email} {acct : String}
    (h : upsertEmail st e acct = (st', none)) :
    st'.emails = upsertRow st.emails (emailRowOf e acct) ∧
      st'.emailLabels = (st.emailLabels.filter (fun pr => ¬ pr.1 = e.id)) ++
        e.labels.map (fun l => (e.id, l)) ∧
      st'.accounts = st.accounts ∧ st'.labels = st.labels ∧
      st'.syncStates = st.syncStates ∧ acct ∈ st.accounts := by
  unfold upsertEmail upsertEmailTx at h
  by_cases hacct : acct ∈ st.accounts
  · rw [if_pos hacct] at h
    dsimp only at h
    cases hins : insertEmailLabels
        (deleteEmailLabelsFor { st with emails := upsertRow st.emails (emailRowOf e acct) } e.id)
        e.id e.labels with
    | ok st2 =>
      rw [hins] at h
      simp only [Prod.mk.injEq] at h
      obtain ⟨h2, -⟩ := h
      subst h2
      obtain ⟨ha, hb, hc, hd, he⟩ := insertEmailLabels_ok_frame hins
      simp only [deleteEmailLabelsFor] at ha hb hc hd he
      exact ⟨hb, he, ha, hc, hd, hacct⟩
    | error er =>
      rw [hins] at h
      simp at h
  · rw [if_neg hacct] at h
    simp at h

theorem upsertEmail_err_rollback {st st' : Store} {e : Email} {acct : String} {er : Err}
    (h : upsertEmail st e acct = (st', some er)) : st' = st := by
  unfold upsertEmail at h
  cases htx : upsertEmailTx st e acct with
  | ok st2 => rw [htx] at h; simp at h
  | error er2 =>
    rw [htx] at h
    simp only [Prod.mk.injEq] at h
    exact h.1.symm

theorem setEmailLabels_ok_spec {st st' : Store} {eid : String} {ls : List String}
    (h : setEmailLabels st eid ls = (st', none)) :
    st'.emails = st.emails ∧
      st'.emailLabels = (st.emailLabels.filter (fun pr => ¬ pr.1 = eid)) ++
        ls.map (fun l => (eid, l)) ∧
      st'.accounts = st.accounts ∧ st'.labels = st.labels ∧
      st'.syncStates = st.syncStates := by
  unfold setEmailLabels setEmailLabelsTx at h
  cases hins : insertEmailLabels (deleteEmailLabelsFor st eid) eid ls with
  | ok st2 =>
    rw [hins] at h
    simp only [Prod.mk.injEq] at h
    obtain ⟨h2, -⟩ := h
    subst h2
    obtain ⟨ha, hb, hc, hd, he⟩ := insertEmailLabels_ok_frame hins
    simp only [deleteEmailLabelsFor] at ha hb hc hd he
    exact ⟨hb, he, ha, hc, hd⟩
  | error er =>
    rw [hins] at h
    simp at h

theorem setEmailLabels_err_rollback {st st' : Store} {eid : String} {ls : List String} {er : Err}
    (h : setEmailLabels st eid ls = (st', some er)) : st' = st := by
  unfold setEmailLabels at h
  cases htx : setEmailLabelsTx st eid ls with
  | ok st2 => rw [htx] at h; simp at h
  | error er2 =>
    rw [htx] at h
    simp only [Prod.mk.injEq] at h
    exact h.1.symm

theorem upsertEmail_ok_labelsFor {st st' : Store} {e : Email} {acct : String}
    (h : upsertEmail st e acct = (st', none)) :
    labelsFor st' e.id = e.labels := by
  unfold labelsFor labelPairsOf
  rw [(upsertEmail_ok_spec h).2.1, filter_pairs_replaced_self, List.map_map]
  have : ((fun pr : String × String => pr.2) ∘ fun l => (e.id, l)) = id := by
    funext x
    rfl
  rw [this, List.map_id]

/-! ### C3: the message row and its label set commit or roll back together -/

/-- C3: `UpsertEmail` writes the message row and the full replacement of its
label set inside one transaction: on success both the row and the label set
reflect the new write, and on any failure the store is rolled back
unchanged — never one without the other. -/
theorem upsertEmail_row_and_labels_atomic (st : Store) (e : Email) (acct : String) :
    (∀ st', upsertEmail st e acct = (st', none) →
        st'.emails.find? (fun x => x.id = e.id) = some (emailRowOf e acct) ∧
          labelsFor st' e.id = e.labels) ∧
      (∀ st' er, upsertEmail st e acct = (st', some er) → st' = st) := by
  constructor
  · intro st' h
    refine ⟨?_, upsertEmail_ok_labelsFor h⟩
    rw [(upsertEmail_ok_spec h).1]
    exact find?_upsertRow st.emails (emailRowOf e acct)
  · intro st' er h
    exact upsertEmail_err_rollback h

/-- Sample message used by the store witnesses. -/
def sampleEmail : Email :=
  { id := "m1"
    threadID := "t1"
    fromAddress := { name := "Alice", email := "alice@test.com" }
    toAddrs := [{ name := "Bob", email := "bob@test.com" }]
    ccAddrs := []
    subject := "hello"
    body := "body one"
    bodyHTML := ""
    date := 10
    labels := ["INBOX", "STARRED"]
    isRead := false
    isStarred := true
    inReplyTo := "" }

/-- Witness for C3: a successful upsert on a concrete store, and a rolled
back upsert against a missing account. -/
theorem upsertEmail_row_and_labels_atomic_witness :
    ((upsertEmail flatStore sampleEmail "acc-1").1.emails.find?
        (fun x => x.id = sampleEmail.id) = some (emailRowOf sampleEmail "acc-1") ∧
      labelsFor (upsertEmail flatStore sampleEmail "acc-1").1 sampleEmail.id =
        sampleEmail.labels) ∧
      (upsertEmail flatStore sampleEmail "missing-acct").1 = flatStore := by
  constructor
  · exact (upsertEmail_row_and_labels_atomic flatStore sampleEmail "acc-1").1
      (upsertEmail flatStore sampleEmail "acc-1").1 (by decide)
  · exact (upsertEmail_row_and_labels_atomic flatStore sampleEmail "missing-acct").2
      (upsertEmail flatStore sampleEmail "missing-acct").1
      "failed to upsert email: FOREIGN KEY constraint failed" (by decide)

/-! ### C4: re-delivery of the same id overwrites, never duplicates -/

/-- C4: upserting two messages with the same id in sequence leaves exactly
one stored row with that id, carrying the second message's fields and label
set — the latest write wins and no duplicate is created. -/
theorem upsertEmail_twice_latest_wins
    (st st1 st2 : Store) (m1 m2 : Email) (acct1 acct2 : String)
    (hid : m1.id = m2.id)
    (hnd : (st.emails.map (fun x => x.id)).Nodup)
    (h1 : upsertEmail st m1 acct1 = (st1, none))
    (h2 : upsertEmail st1 m2 acct2 = (st2, none)) :
    st2.emails.filter (fun x => x.id = m1.id) = [emailRowOf m2 acct2] ∧
      labelsFor st2 m1.id = m2.labels := by
  rw [hid]
  have hnd1 : (st1.emails.map (fun x => x.id)).Nodup := by
    rw [(upsertEmail_ok_spec h1).1]
    exact map_id_upsertRow st.emails (emailRowOf m1 acct1) hnd
  refine ⟨?_, upsertEmail_ok_labelsFor h2⟩
  rw [(upsertEmail_ok_spec h2).1]
  exact filter_upsertRow_self st1.emails (emailRowOf m2 acct2) hnd1

/-- A second sample message sharing `sampleEmail`'s id. -/
def sampleEmail2 : Email :=
  { id := "m1"
    threadID := "t9"
    fromAddress := { name := "Carol", email := "carol@test.com" }
    toAddrs := []
    ccAddrs := []
    subject := "changed"
    body := "body two"
    bodyHTML := "<b>two</b>"
    date := 20
    labels := ["SENT"]
    isRead := true
    isStarred := false
    inReplyTo := "m0" }

/-- Witness for C4 at a concrete double upsert. -/
theorem upsertEmail_twice_latest_wins_witness :
    (upsertEmail (upsertEmail flatStore sampleEmail "acc-1").1 sampleEmail2 "acc-1").1.emails.filter
        (fun x => x.id = sampleEmail.id) = [emailRowOf sampleEmail2 "acc-1"] ∧
      labelsFor (upsertEmail (upsertEmail flatStore sampleEmail "acc-1").1 sampleEmail2 "acc-1").1
        sampleEmail.id = sampleEmail2.labels := by
  exact upsertEmail_twice_latest_wins flatStore
    (upsertEmail flatStore sampleEmail "acc-1").1
    (upsertEmail (upsertEmail flatStore sampleEmail "acc-1").1 sampleEmail2 "acc-1").1
    sampleEmail sampleEmail2 "acc-1" "acc-1" (by decide) (by decide) (by decide) (by decide)

/-! ### C5: SetEmailLabels is a full replace -/

/-- C5: for a stored message, `SetEmailLabels` followed by `GetEmail`
returns the message with label set exactly the list last set, regardless of
the labels previously attached — a full replace, not a merge. -/
theorem setEmailLabels_then_getEmail
    (st st' : Store) (eid : String) (ls : List String) (r : EmailRow)
    (hr : st.emails.find? (fun x => x.id = eid) = some r)
    (h : setEmailLabels st eid ls = (st', none)) :
    getEmail st' eid = .ok (emailFromRow r ls) ∧ (emailFromRow r ls).labels = ls := by
  obtain ⟨hem, hlab, -, -, -⟩ := setEmailLabels_ok_spec h
  have hfor : labelsFor st' eid = ls := by
    unfold labelsFor labelPairsOf
    rw [hlab, filter_pairs_replaced_self, List.map_map]
    have hcomp : ((fun pr : String × String => pr.2) ∘ fun l => (eid, l)) = id := by
      funext x
      rfl
    rw [hcomp, List.map_id]
  constructor
  · unfold getEmail
    rw [hem, hr, hfor]
  · rfl

/-- Witness for C5: replace the labels of a stored message and read it back. -/
theorem setEmailLabels_then_getEmail_witness :
    getEmail (setEmailLabels (upsertEmail flatStore sampleEmail "acc-1").1 "m1" ["TRASH"]).1 "m1" =
      .ok (emailFromRow (emailRowOf sampleEmail "acc-1") ["TRASH"]) ∧
      (emailFromRow (emailRowOf sampleEmail "acc-1") ["TRASH"]).labels = ["TRASH"] := by
  exact setEmailLabels_then_getEmail
    (upsertEmail flatStore sampleEmail "acc-1").1
    (setEmailLabels (upsertEmail flatStore sampleEmail "acc-1").1 "m1" ["TRASH"]).1
    "m1" ["TRASH"] (emailRowOf sampleEmail "acc-1") (by decide) (by decide)

/-! ### Ordering and snippet helpers -/

theorem sorted_dateAsc_le_getLast :
    ∀ (l : List EmailRow) (hne : l ≠ []), l.Sorted dateAsc →
      ∀ m ∈ l, m.date ≤ (l.getLast hne).date := by
  intro l
  induction l with
  | nil => intro hne; exact absurd rfl hne
  | cons a t ih =>
    intro hne hs m hm
    cases t with
    | nil =>
      simp only [List.mem_singleton] at hm
      subst hm
      exact Nat.le_refl _
    | cons b t2 =>
      rw [List.getLast_cons (List.cons_ne_nil b t2)]
      rw [List.sorted_cons] at hs
      rcases List.mem_cons.1 hm with hma | hmt
      · subst hma
        exact hs.1 _ (List.getLast_mem (List.cons_ne_nil b t2))
      · exact ih (List.cons_ne_nil b t2) hs.2 m hmt

theorem truncateSnippet_length_le (s : String) : (truncateSnippet s).length ≤ 100 := by
  unfold truncateSnippet
  by_cases h : s.length > 100
  · rw [if_pos h, List.length_asString, List.length_take]
    exact Nat.le_trans (Nat.min_le_left _ _) (Nat.le_refl _)
  · rw [if_neg h]
    omega

theorem truncateSnippet_toList_prefix (s : String) :
    ∃ rest, s.toList = (truncateSnippet s).toList ++ rest := by
  unfold truncateSnippet
  by_cases h : s.length > 100
  · rw [if_pos h]
    exact ⟨s.toList.drop 100, by rw [List.toList_asString, List.take_append_drop]⟩
  · rw [if_neg h]
    exact ⟨[], by rw [List.append_nil]⟩

theorem date_le_maxDate {rows : List EmailRow} {r : EmailRow} (h : r ∈ rows) :
    r.date ≤ maxDate rows := by
  induction rows with
  | nil => simp at h
  | cons a t ih =>
    have hstep : maxDate (a :: t) = max a.date (maxDate t) := by
      simp [maxDate]
    rcases List.mem_cons.1 h with ha | ht
    · subst ha
      rw [hstep]
      exact Nat.le_max_left _ _
    · rw [hstep]
      exact Nat.le_trans (ih ht) (Nat.le_max_right _ _)

theorem exists_maxDate_mem : ∀ (rows : List EmailRow), rows ≠ [] →
    ∃ r ∈ rows, r.date = maxDate rows := by
  intro rows
  induction rows with
  | nil => intro h; exact absurd rfl h
  | cons a t ih =>
    intro _
    have hstep : maxDate (a :: t) = max a.date (maxDate t) := by
      simp [maxDate]
    cases t with
    | nil =>
      refine ⟨a, List.mem_singleton_self a, ?_⟩
      rw [hstep]
      simp [maxDate]
    | cons b t2 =>
      rcases Nat.le_total (maxDate (b :: t2)) a.date with hle | hge
      · refine ⟨a, List.mem_cons_self a _, ?_⟩
        rw [hstep, Nat.max_eq_left hle]
      · obtain ⟨r, hr, hrd⟩ := ih (List.cons_ne_nil b t2)
        refine ⟨r, List.mem_cons_of_mem a hr, ?_⟩
        rw [hstep, Nat.max_eq_right hge, hrd]

/-! ### C7: GetThread -/

/-- C7: `GetThread` returns not-found exactly when no stored message has
the given thread id and account id; otherwise it returns all such messages
ordered by timestamp ascending, with `LastDate` the latest such message's
timestamp and the snippet a prefix of at most 100 characters of that latest
message's body; it never returns a present-but-empty thread. -/
theorem getThread_spec (st : Store) (tid acct : String) :
    ((∃ er, getThread st tid acct = .error er) ↔
        st.emails.filter (fun e => e.threadID = tid ∧ e.accountID = acct) = []) ∧
      ∀ t, getThread st tid acct = .ok t →
        t.messages ≠ [] ∧
          t.messages.Perm (st.emails.filter (fun e => e.threadID = tid ∧ e.accountID = acct)) ∧
          t.messages.Sorted dateAsc ∧
          (∀ m ∈ st.emails.filter (fun e => e.threadID = tid ∧ e.accountID = acct),
            m.date ≤ t.lastDate) ∧
          ∃ m ∈ st.emails.filter (fun e => e.threadID = tid ∧ e.accountID = acct),
            m.date = t.lastDate ∧ t.snippet = truncateSnippet m.bodyText ∧
              t.snippet.length ≤ 100 ∧
              ∃ rest, m.bodyText.toList = t.snippet.toList ++ rest := by
  have hperm := List.perm_insertionSort dateAsc
    (st.emails.filter (fun e => e.threadID = tid ∧ e.accountID = acct))
  have hsorted := List.sorted_insertionSort dateAsc
    (st.emails.filter (fun e => e.threadID = tid ∧ e.accountID = acct))
  cases hm : List.insertionSort dateAsc
      (st.emails.filter (fun e => e.threadID = tid ∧ e.accountID = acct)) with
  | nil =>
    rw [hm] at hperm
    have hsel : st.emails.filter (fun e => e.threadID = tid ∧ e.accountID = acct) = [] :=
      hperm.symm.eq_nil
    have hthread : getThread st tid acct = .error ("thread " ++ tid ++ " not found") := by
      unfold getThread
      rw [hm]
    constructor
    · exact ⟨fun _ => hsel, fun _ => ⟨_, hthread⟩⟩
    · intro t ht
      rw [hthread] at ht
      cases ht
  | cons first rest =>
    rw [hm] at hperm hsorted
    have hthread : getThread st tid acct = .ok
        { id := tid
          subject := first.subject
          messages := first :: rest
          snippet := truncateSnippet ((first :: rest).getLast
            (List.cons_ne_nil first rest)).bodyText
          lastDate := ((first :: rest).getLast (List.cons_ne_nil first rest)).date
          fromAddress := { name := "", email := "" }
          totalCount := 0
          hasUnread := false } := by
      unfold getThread
      rw [hm]
    constructor
    · constructor
      · intro ⟨er, her⟩
        rw [hthread] at her
        cases her
      · intro hsel
        rw [hsel] at hperm
        exact absurd hperm.eq_nil (List.cons_ne_nil first rest)
    · intro t ht
      rw [hthread] at ht
      cases ht
      refine ⟨List.cons_ne_nil first rest, hperm, hsorted, ?_, ?_⟩
      · intro m hmsel
        exact sorted_dateAsc_le_getLast (first :: rest) (List.cons_ne_nil first rest)
          hsorted m (hperm.mem_iff.2 hmsel)
      · refine ⟨(first :: rest).getLast (List.cons_ne_nil first rest),
          hperm.mem_iff.1 (List.getLast_mem (List.cons_ne_nil first rest)), rfl, rfl, ?_, ?_⟩
        · exact truncateSnippet_length_le _
        · exact truncateSnippet_toList_prefix _

/-- A concrete store with one two-message thread, for the thread witnesses. -/
def threadStore : Store :=
  { accounts := ["acc-1"]
    emails :=
      [ { id := "m1", accountID := "acc-1", threadID := "t1",
          fromAddr := "alice@test.com", fromName := "Alice",
          toAddrs := [], ccAddrs := [], subject := "Thread subject",
          bodyText := "hour zero body", bodyHTML := "", date := 0,
          isRead := true, isStarred := false, inReplyTo := "" },
        { id := "m2", accountID := "acc-1", threadID := "t1",
          fromAddr := "bob@test.com", fromName := "Bob",
          toAddrs := [], ccAddrs := [], subject := "Re: Thread subject",
          bodyText := "hour one body", bodyHTML := "", date := 3600,
          isRead := false, isStarred := false, inReplyTo := "m1" } ]
    emailLabels := [("m1", "INBOX"), ("m2", "INBOX")]
    labels := []
    syncStates := [] }

/-- The thread `GetThread` produces on `threadStore`. -/
def threadStoreT1 : Thread :=
  match getThread threadStore "t1" "acc-1" with
  | .ok t => t
  | .error _ => default

/-- Witness for C7 on the concrete two-message thread. -/
theorem getThread_spec_witness :
    threadStoreT1.messages ≠ [] ∧
      threadStoreT1.messages.Perm
        (threadStore.emails.filter (fun e => e.threadID = "t1" ∧ e.accountID = "acc-1")) ∧
      threadStoreT1.messages.Sorted dateAsc ∧
      (∀ m ∈ threadStore.emails.filter (fun e => e.threadID = "t1" ∧ e.accountID = "acc-1"),
        m.date ≤ threadStoreT1.lastDate) ∧
      ∃ m ∈ threadStore.emails.filter (fun e => e.threadID = "t1" ∧ e.accountID = "acc-1"),
        m.date = threadStoreT1.lastDate ∧
          threadStoreT1.snippet = truncateSnippet m.bodyText ∧
          threadStoreT1.snippet.length ≤ 100 ∧
          ∃ rest, m.bodyText.toList = threadStoreT1.snippet.toList ++ rest :=
  (getThread_spec threadStore "t1" "acc-1").2 threadStoreT1 (by rfl)

/-! ### C9: ListEmails -/

/-- C9: with no limit or offset, `ListEmails` returns exactly the account's
messages — all of them when no label filter is given, otherwise the ones
carrying the filter label — ordered by timestamp descending (whenever one
message's timestamp is later than another's, it appears earlier). -/
theorem listEmails_account_messages_date_desc (st : Store) (opts : ListEmailOptions)
    (hlim : opts.limit = 0) (hoff : opts.offset = 0) :
    (∀ e, e ∈ listEmails st opts ↔
        (e ∈ st.emails ∧ e.accountID = opts.accountID ∧
          (opts.labelID ≠ "" → (e.id, opts.labelID) ∈ st.emailLabels))) ∧
      (listEmails st opts).Pairwise dateDesc := by
  have heq : listEmails st opts = List.insertionSort dateDesc (labelFiltered st opts) := by
    unfold listEmails applyLimitOffset
    rw [hlim, hoff]
    simp
  have hperm := List.perm_insertionSort dateDesc (labelFiltered st opts)
  constructor
  · intro e
    rw [heq, hperm.mem_iff]
    unfold labelFiltered
    by_cases hl : opts.labelID = ""
    · rw [if_neg (by simpa using hl)]
      simp only [List.mem_filter, decide_eq_true_eq]
      constructor
      · rintro ⟨h1, h2⟩
        exact ⟨h1, h2, fun hc => absurd hl hc⟩
      · rintro ⟨h1, h2, -⟩
        exact ⟨h1, h2⟩
    · rw [if_pos (by simpa using hl)]
      simp only [List.mem_filter, decide_eq_true_eq]
      constructor
      · rintro ⟨h1, h2, h3⟩
        exact ⟨h1, h2, fun _ => h3⟩
      · rintro ⟨h1, h2, h3⟩
        exact ⟨h1, h2, h3 hl⟩
  · rw [heq]
    exact List.sorted_insertionSort dateDesc (labelFiltered st opts)

/-- Witness for C9 on the concrete thread store with the INBOX filter. -/
theorem listEmails_account_messages_date_desc_witness :
    (∀ e, e ∈ listEmails threadStore
        { accountID := "acc-1", labelID := "INBOX", limit := 0, offset := 0 } ↔
        (e ∈ threadStore.emails ∧ e.accountID = "acc-1" ∧
          ("INBOX" ≠ "" → (e.id, "INBOX") ∈ threadStore.emailLabels))) ∧
      (listEmails threadStore
        { accountID := "acc-1", labelID := "INBOX", limit := 0, offset := 0 }).Pairwise dateDesc :=
  listEmails_account_messages_date_desc threadStore
    { accountID := "acc-1", labelID := "INBOX", limit := 0, offset := 0 } rfl rfl

/-! ### C6: ListThreads aggregation -/

theorem sorted_dateAsc_head_le {a : EmailRow} {t : List EmailRow}
    (hs : (a :: t).Sorted dateAsc) : ∀ m ∈ a :: t, a.date ≤ m.date := by
  intro m hm
  rcases List.mem_cons.1 hm with hma | hmt
  · subst hma
    exact Nat.le_refl _
  · exact (List.sorted_cons.1 hs).1 m hmt

theorem sorted_dateDesc_head_ge {a : EmailRow} {t : List EmailRow}
    (hs : (a :: t).Sorted dateDesc) : ∀ m ∈ a :: t, m.date ≤ a.date := by
  intro m hm
  rcases List.mem_cons.1 hm with hma | hmt
  · subst hma
    exact Nat.le_refl _
  · exact (List.sorted_cons.1 hs).1 m hmt

theorem mem_applyLimitOffset {α : Type} {limit offset : Nat} {l : List α} {x : α}
    (h : x ∈ applyLimitOffset limit offset l) : x ∈ l := by
  unfold applyLimitOffset at h
  by_cases hoff : offset > 0 <;> by_cases hlim : limit > 0 <;>
    simp only [hoff, hlim, if_true, if_false] at h
  · exact List.drop_subset offset l (List.take_subset limit _ h)
  · exact List.drop_subset offset l h
  · exact List.take_subset limit l h
  · exact h

theorem threadSummary_fields (st : Store) (rows : List EmailRow) (tid : String)
    (fw lw : EmailRow) (fwr lwr : List EmailRow)
    (hsa : List.insertionSort dateAsc (wholeThreadRows st tid) = fw :: fwr)
    (hsd : List.insertionSort dateDesc (wholeThreadRows st tid) = lw :: lwr) :
    (threadSummary st rows tid).id = tid ∧
      (threadSummary st rows tid).subject = fw.subject ∧
      (threadSummary st rows tid).fromAddress = { name := fw.fromName, email := fw.fromAddr } ∧
      (threadSummary st rows tid).snippet = truncateSnippet lw.bodyText ∧
      (threadSummary st rows tid).lastDate = maxDate (rows.filter (fun e => e.threadID = tid)) ∧
      (threadSummary st rows tid).totalCount = (rows.filter (fun e => e.threadID = tid)).length ∧
      (threadSummary st rows tid).hasUnread =
        !((rows.filter (fun e => e.threadID = tid)).all (fun e => e.isRead)) := by
  unfold threadSummary
  dsimp only
  rw [hsa, hsd]
  simp

/-- C6 (amended): each summary returned by `ListThreads` aggregates its
count, latest timestamp and unread flag over the account's label-filtered
messages of the thread, while its subject, sender and snippet come from the
earliest and latest messages of the whole thread (the correlated subqueries
filter only on the thread id, not on the account or label). -/
theorem listThreads_aggregates (st : Store) (opts : ListEmailOptions) :
    ∀ t ∈ listThreads st opts,
      (labelFiltered st opts).filter (fun e => e.threadID = t.id) ≠ [] ∧
        t.totalCount = ((labelFiltered st opts).filter (fun e => e.threadID = t.id)).length ∧
        (t.hasUnread = true ↔
          ∃ m ∈ (labelFiltered st opts).filter (fun e => e.threadID = t.id), m.isRead = false) ∧
        (∀ m ∈ (labelFiltered st opts).filter (fun e => e.threadID = t.id),
          m.date ≤ t.lastDate) ∧
        (∃ m ∈ (labelFiltered st opts).filter (fun e => e.threadID = t.id),
          m.date = t.lastDate) ∧
        (∃ m ∈ wholeThreadRows st t.id, (∀ m' ∈ wholeThreadRows st t.id, m.date ≤ m'.date) ∧
          t.subject = m.subject ∧ t.fromAddress = { name := m.fromName, email := m.fromAddr }) ∧
        (∃ m ∈ wholeThreadRows st t.id, (∀ m' ∈ wholeThreadRows st t.id, m'.date ≤ m.date) ∧
          t.snippet = truncateSnippet m.bodyText ∧ t.snippet.length ≤ 100 ∧
          ∃ rest, m.bodyText.toList = t.snippet.toList ++ rest) := by
  intro t ht
  unfold listThreads at ht
  dsimp only at ht
  have ht2 := mem_applyLimitOffset ht
  have ht3 := (List.perm_insertionSort threadDateDesc _).mem_iff.1 ht2
  obtain ⟨tid, htid, heq⟩ := List.mem_map.1 ht3
  have hgrp : ∃ r ∈ labelFiltered st opts, r.threadID = tid := by
    have h1 : tid ∈ (labelFiltered st opts).map (fun e => e.threadID) := List.mem_dedup.1 htid
    obtain ⟨r, hr, hre⟩ := List.mem_map.1 h1
    exact ⟨r, hr, hre⟩
  obtain ⟨r0, hr0, hr0t⟩ := hgrp
  have hr0g : r0 ∈ (labelFiltered st opts).filter (fun e => e.threadID = tid) :=
    List.mem_filter.2 ⟨hr0, by simpa using hr0t⟩
  have hgne : (labelFiltered st opts).filter (fun e => e.threadID = tid) ≠ [] :=
    List.ne_nil_of_mem hr0g
  have hr0w : r0 ∈ wholeThreadRows st tid := by
    unfold wholeThreadRows
    unfold labelFiltered at hr0
    refine List.mem_filter.2 ⟨?_, by simpa using hr0t⟩
    by_cases hl : opts.labelID ≠ ""
    · rw [if_pos hl] at hr0
      exact List.mem_filter.1 hr0 |>.1
    · rw [if_neg hl] at hr0
      exact List.mem_filter.1 hr0 |>.1
  have hwne : wholeThreadRows st tid ≠ [] := List.ne_nil_of_mem hr0w
  have hpermA := List.perm_insertionSort dateAsc (wholeThreadRows st tid)
  have hpermD := List.perm_insertionSort dateDesc (wholeThreadRows st tid)
  have hsortA := List.sorted_insertionSort dateAsc (wholeThreadRows st tid)
  have hsortD := List.sorted_insertionSort dateDesc (wholeThreadRows st tid)
  cases hsa : List.insertionSort dateAsc (wholeThreadRows st tid) with
  | nil =>
    rw [hsa] at hpermA
    exact absurd hpermA.symm.eq_nil hwne
  | cons fw fwr =>
  cases hsd : List.insertionSort dateDesc (wholeThreadRows st tid) with
  | nil =>
    rw [hsd] at hpermD
    exact absurd hpermD.symm.eq_nil hwne
  | cons lw lwr =>
  rw [hsa] at hpermA hsortA
  rw [hsd] at hpermD hsortD
  obtain ⟨hid, hsub, hfrom, hsnip, hlast, hcount, hunread⟩ :=
    threadSummary_fields st (labelFiltered st opts) tid fw lw fwr lwr hsa hsd
  rw [heq] at hid hsub hfrom hsnip hlast hcount hunread
  rw [hid]
  refine ⟨hgne, hcount, ?_, ?_, ?_, ?_, ?_⟩
  · rw [hunread]
    simp only [Bool.not_eq_true', List.all_eq_false, Bool.not_eq_true]
  · intro m hm
    rw [hlast]
    exact date_le_maxDate hm
  · rw [hlast]
    exact exists_maxDate_mem _ hgne
  · refine ⟨fw, hpermA.mem_iff.1 (List.mem_cons_self fw fwr), ?_, hsub, hfrom⟩
    intro m' hm'
    exact sorted_dateAsc_head_le hsortA m' (hpermA.mem_iff.2 hm')
  · refine ⟨lw, hpermD.mem_iff.1 (List.mem_cons_self lw lwr), ?_, hsnip, ?_, ?_⟩
    · intro m' hm'
      exact sorted_dateDesc_head_ge hsortD m' (hpermD.mem_iff.2 hm')
    · rw [hsnip]
      exact truncateSnippet_length_le _
    · rw [hsnip]
      exact truncateSnippet_toList_prefix _

/-- A store where the thread's latest message does not carry the filter
label: the account's only WORK-labelled message has body "AAAA", while the
latest message of the whole thread has body "BBBB" and no label. -/
def mixStore : Store :=
  { accounts := ["acc-1"]
    emails :=
      [ { id := "mA", accountID := "acc-1", threadID := "t1",
          fromAddr := "a@test.com", fromName := "A",
          toAddrs := [], ccAddrs := [], subject := "SA",
          bodyText := "AAAA", bodyHTML := "", date := 1,
          isRead := true, isStarred := false, inReplyTo := "" },
        { id := "mB", accountID := "acc-1", threadID := "t1",
          fromAddr := "b@test.com", fromName := "B",
          toAddrs := [], ccAddrs := [], subject := "SB",
          bodyText := "BBBB", bodyHTML := "", date := 2,
          isRead := true, isStarred := false, inReplyTo := "" } ]
    emailLabels := [("mA", "WORK")]
    labels := []
    syncStates := [] }

/-- The label-filtered listing options used in the ListThreads scenarios. -/
def mixOpts : ListEmailOptions :=
  { accountID := "acc-1", labelID := "WORK", limit := 0, offset := 0 }

/-- C6 counterexample: on `mixStore` with the WORK filter, the single
summary's snippet is "BBBB", taken from the latest message of the whole
thread, which carries no WORK label — it is not a prefix of the body of the
latest message that carries the filter label (body "AAAA"), so the claim
that the snippet comes from the latest *filtered* message is false. -/
theorem listThreads_filtered_snippet_counterexample :
    ¬ (∀ t ∈ listThreads mixStore mixOpts,
        ∃ m ∈ (labelFiltered mixStore mixOpts).filter (fun e => e.threadID = t.id),
          (∀ m' ∈ (labelFiltered mixStore mixOpts).filter (fun e => e.threadID = t.id),
            m'.date ≤ m.date) ∧
            t.snippet = (m.bodyText.toList.take t.snippet.length).asString) := by
  decide

/-- The summary `ListThreads` produces on `mixStore`. -/
def mixSummary : Thread := (listThreads mixStore mixOpts).headI

/-- Witness for the amended C6 on the concrete mixed-label thread. -/
theorem listThreads_aggregates_witness :
    (labelFiltered mixStore mixOpts).filter (fun e => e.threadID = mixSummary.id) ≠ [] ∧
      mixSummary.totalCount =
        ((labelFiltered mixStore mixOpts).filter (fun e => e.threadID = mixSummary.id)).length ∧
      (mixSummary.hasUnread = true ↔
        ∃ m ∈ (labelFiltered mixStore mixOpts).filter (fun e => e.threadID = mixSummary.id),
          m.isRead = false) ∧
      (∀ m ∈ (labelFiltered mixStore mixOpts).filter (fun e => e.threadID = mixSummary.id),
        m.date ≤ mixSummary.lastDate) ∧
      (∃ m ∈ (labelFiltered mixStore mixOpts).filter (fun e => e.threadID = mixSummary.id),
        m.date = mixSummary.lastDate) ∧
      (∃ m ∈ wholeThreadRows mixStore mixSummary.id,
        (∀ m' ∈ wholeThreadRows mixStore mixSummary.id, m.date ≤ m'.date) ∧
          mixSummary.subject = m.subject ∧
          mixSummary.fromAddress = { name := m.fromName, email := m.fromAddr }) ∧
      (∃ m ∈ wholeThreadRows mixStore mixSummary.id,
        (∀ m' ∈ wholeThreadRows mixStore mixSummary.id, m'.date ≤ m.date) ∧
          mixSummary.snippet = truncateSnippet m.bodyText ∧
          mixSummary.snippet.length ≤ 100 ∧
          ∃ rest, m.bodyText.toList = mixSummary.snippet.toList ++ rest) :=
  listThreads_aggregates mixStore mixOpts mixSummary (by decide)

/-! ### Event loop decomposition -/

theorem applyEvent_err_store {p : Provider} {acct : String} {st st' : Store}
    {ev : HistoryEvent} {e : Err}
    (h : applyEvent p acct st ev = (st', some e)) : st' = st := by
  unfold applyEvent at h
  by_cases h0 : ev.type = historyMessageAdded
  · rw [if_pos h0] at h
    cases hg : p.getMessage ev.messageID with
    | error er =>
      rw [hg] at h
      simp only [Prod.mk.injEq] at h
      exact h.1.symm
    | ok msg =>
      rw [hg] at h
      exact upsertEmail_err_rollback h
  · rw [if_neg h0] at h
    by_cases h1 : ev.type = historyMessageDeleted
    · rw [if_pos h1] at h
      simp at h
    · rw [if_neg h1] at h
      by_cases h2 : ev.type = historyLabelsAdded ∨ ev.type = historyLabelsRemoved
      · rw [if_pos h2] at h
        cases hg : p.getMessage ev.messageID with
        | error er =>
          rw [hg] at h
          simp only [Prod.mk.injEq] at h
          exact h.1.symm
        | ok msg =>
          rw [hg] at h
          exact setEmailLabels_err_rollback h
      · rw [if_neg h2] at h
        simp at h

theorem applyEvents_cons (p : Provider) (acct : String) (st : Store)
    (ev : HistoryEvent) (rest : List HistoryEvent) :
    applyEvents p acct st (ev :: rest) =
      match applyEvent p acct st ev with
      | (st', none) => applyEvents p acct st' rest
      | (st', some e) => (st', some e) := rfl

theorem applyEvents_append (p : Provider) (acct : String)
    (l1 l2 : List HistoryEvent) (st : Store) :
    applyEvents p acct st (l1 ++ l2) =
      match applyEvents p acct st l1 with
      | (st1, none) => applyEvents p acct st1 l2
      | (st1, some e) => (st1, some e) := by
  induction l1 generalizing st with
  | nil => rfl
  | cons ev rest ih =>
    rw [List.cons_append, applyEvents_cons, applyEvents_cons]
    cases hev : applyEvent p acct st ev with
    | mk st' res =>
      cases res with
      | none =>
        dsimp only
        exact ih st'
      | some e => rfl

/-! ### C2: strict order, abort on failure, persist only on full success -/

/-- C2: `IncrementalSync` applies the history events strictly in the order
received; if an event fails, the pass returns that event's error with the
store exactly as the preceding events left it — no later event is applied
and the stored cursor and last-sync timestamp are unchanged; the new cursor
and timestamp are persisted only when every event applied without error. -/
theorem incrementalSync_order_abort_persist
    (p : Provider) (acct : String) (now : Int) (st : Store)
    (events : List HistoryEvent) (nh : Nat)
    (hcur : (getSyncState st acct).historyID ≠ 0)
    (hhist : p.history (getSyncState st acct).historyID = .ok (events, nh)) :
    (∀ evs1 ev evs2 st1 e, events = evs1 ++ ev :: evs2 →
        applyEvents p acct st evs1 = (st1, none) →
        (applyEvent p acct st1 ev).2 = some e →
        incrementalSync p acct now st = (st1, some e) ∧
          getSyncState st1 acct = getSyncState st acct) ∧
      (∀ st1, applyEvents p acct st events = (st1, none) → acct ∈ st.accounts →
        ∃ st2, incrementalSync p acct now st = (st2, none) ∧
          getSyncState st2 acct = { accountID := acct, historyID := nh, lastSync := now } ∧
          st2.emails = st1.emails ∧ st2.emailLabels = st1.emailLabels) := by
  have hinc : incrementalSync p acct now st =
      match applyEvents p acct st events with
      | (st', some e) => (st', some e)
      | (st', none) =>
        match setSyncState st' { accountID := acct, historyID := nh, lastSync := now } with
        | .ok st'' => (st'', none)
        | .error e => (st', some e) := by
    unfold incrementalSync
    rw [if_neg hcur, hhist]
  constructor
  · intro evs1 ev evs2 st1 e hsplit h1 hev
    have hevfull : applyEvent p acct st1 ev = (st1, some e) := by
      cases hae : applyEvent p acct st1 ev with
      | mk s2 r2 =>
        rw [hae] at hev
        simp only at hev
        subst hev
        have h2 := applyEvent_err_store hae
        subst h2
        rfl
    have happ : applyEvents p acct st events = (st1, some e) := by
      rw [hsplit, applyEvents_append, h1]
      dsimp only
      rw [applyEvents_cons, hevfull]
    have hframe := (applyEvents_frame p acct evs1 st).2.2
    rw [h1] at hframe
    constructor
    · rw [hinc, happ]
    · unfold getSyncState
      rw [hframe]
  · intro st1 h1 hacct
    have haccts := (applyEvents_frame p acct events st).1
    rw [h1] at haccts
    have hacct1 : acct ∈ st1.accounts := by
      rw [haccts]
      exact hacct
    have hss : setSyncState st1 { accountID := acct, historyID := nh, lastSync := now } =
        .ok { st1 with syncStates :=
          upsertSyncRow st1.syncStates { accountID := acct, historyID := nh, lastSync := now } } := by
      unfold setSyncState
      rw [if_pos hacct1]
    refine Exists.intro
      { st1 with syncStates := upsertSyncRow st1.syncStates { accountID := acct, historyID := nh, lastSync := now } }
      ⟨?_, ?_, rfl, rfl⟩
    · rw [hinc, h1]
      dsimp only
      rw [hss]
    · exact getSyncState_setSyncState hss

/-- A store holding a real cursor (historyID 5) for account acc-1. -/
def cursorStore : Store :=
  { accounts := ["acc-1"], emails := [], emailLabels := [], labels := []
    syncStates := [{ accountID := "acc-1", historyID := 5, lastSync := 0 }] }

/-- A provider whose history feed contains a deletion, an added event whose
message fetch fails, and a further deletion. -/
def failingProvider : Provider :=
  { listLabels := .ok []
    listMessages := fun _ _ => .ok ([], "")
    getMessage := fun _ => .error "boom"
    history := fun _ => .ok
      ([{ type := 1, messageID := "zz", labelIDs := [] },
        { type := 0, messageID := "x", labelIDs := [] },
        { type := 1, messageID := "mA", labelIDs := [] }], 9) }

/-- A provider whose history feed contains a single deletion event. -/
def deleteOnlyProvider : Provider :=
  { listLabels := .ok []
    listMessages := fun _ _ => .ok ([], "")
    getMessage := fun _ => .error "boom"
    history := fun _ => .ok ([{ type := 1, messageID := "zz", labelIDs := [] }], 9) }

/-- Witness for C2: the failing added event aborts the pass with the store
as the first event left it and the sync state untouched; a fully successful
pass persists the new cursor. -/
theorem incrementalSync_order_abort_persist_witness :
    (incrementalSync failingProvider "acc-1" 77 cursorStore =
        (deleteEmail cursorStore "zz", some "boom") ∧
      getSyncState (deleteEmail cursorStore "zz") "acc-1" = getSyncState cursorStore "acc-1") ∧
      ∃ st2, incrementalSync deleteOnlyProvider "acc-1" 77 cursorStore = (st2, none) ∧
        getSyncState st2 "acc-1" = { accountID := "acc-1", historyID := 9, lastSync := 77 } ∧
        st2.emails = (deleteEmail cursorStore "zz").emails ∧
        st2.emailLabels = (deleteEmail cursorStore "zz").emailLabels := by
  constructor
  · exact (incrementalSync_order_abort_persist failingProvider "acc-1" 77 cursorStore
      [{ type := 1, messageID := "zz", labelIDs := [] },
        { type := 0, messageID := "x", labelIDs := [] },
        { type := 1, messageID := "mA", labelIDs := [] }] 9 (by decide) (by rfl)).1
      [{ type := 1, messageID := "zz", labelIDs := [] }]
      { type := 0, messageID := "x", labelIDs := [] }
      [{ type := 1, messageID := "mA", labelIDs := [] }]
      (deleteEmail cursorStore "zz") "boom" rfl (by decide) (by decide)
  · exact (incrementalSync_order_abort_persist deleteOnlyProvider "acc-1" 77 cursorStore
      [{ type := 1, messageID := "zz", labelIDs := [] }] 9 (by decide) (by rfl)).2
      (deleteEmail cursorStore "zz") (by decide) (by decide)

/-! ### C10: unknown event kinds are skipped silently -/

/-- C10: a history event whose kind is none of the four known kinds causes
no store mutation and no error, and a pass consisting of such events still
completes and persists the new cursor. -/
theorem incrementalSync_skips_unknown_events
    (p : Provider) (acct : String) (now : Int) (st : Store)
    (events : List HistoryEvent) (nh : Nat) :
    (∀ ev : HistoryEvent, ev.type ≠ historyMessageAdded → ev.type ≠ historyMessageDeleted →
        ev.type ≠ historyLabelsAdded → ev.type ≠ historyLabelsRemoved →
        applyEvent p acct st ev = (st, none)) ∧
      ((∀ ev ∈ events, ev.type ≠ historyMessageAdded ∧ ev.type ≠ historyMessageDeleted ∧
          ev.type ≠ historyLabelsAdded ∧ ev.type ≠ historyLabelsRemoved) →
        (getSyncState st acct).historyID ≠ 0 →
        p.history (getSyncState st acct).historyID = .ok (events, nh) →
        acct ∈ st.accounts →
        ∃ st2, incrementalSync p acct now st = (st2, none) ∧
          st2.emails = st.emails ∧ st2.emailLabels = st.emailLabels ∧
          st2.labels = st.labels ∧
          getSyncState st2 acct = { accountID := acct, historyID := nh, lastSync := now }) := by
  have hskip : ∀ (st0 : Store) (ev : HistoryEvent),
      ev.type ≠ historyMessageAdded → ev.type ≠ historyMessageDeleted →
      ev.type ≠ historyLabelsAdded → ev.type ≠ historyLabelsRemoved →
      applyEvent p acct st0 ev = (st0, none) := by
    intro st0 ev h0 h1 h2 h3
    unfold applyEvent
    rw [if_neg h0, if_neg h1, if_neg (by rintro (hc | hc) <;> [exact h2 hc; exact h3 hc])]
  constructor
  · intro ev h0 h1 h2 h3
    exact hskip st ev h0 h1 h2 h3
  · intro hall hcur hhist hacct
    have happ : ∀ evs : List HistoryEvent,
        (∀ ev ∈ evs, ev.type ≠ historyMessageAdded ∧ ev.type ≠ historyMessageDeleted ∧
          ev.type ≠ historyLabelsAdded ∧ ev.type ≠ historyLabelsRemoved) →
        applyEvents p acct st evs = (st, none) := by
      intro evs hall2
      induction evs with
      | nil => rfl
      | cons ev rest ih =>
        have hev := hall2 ev (List.mem_cons_self ev rest)
        rw [applyEvents_cons, hskip st ev hev.1 hev.2.1 hev.2.2.1 hev.2.2.2]
        exact ih (fun e he => hall2 e (List.mem_cons_of_mem ev he))
    have hss : setSyncState st { accountID := acct, historyID := nh, lastSync := now } =
        .ok { st with syncStates :=
          upsertSyncRow st.syncStates { accountID := acct, historyID := nh, lastSync := now } } := by
      unfold setSyncState
      rw [if_pos hacct]
    refine Exists.intro
      { st with syncStates := upsertSyncRow st.syncStates { accountID := acct, historyID := nh, lastSync := now } }
      ⟨?_, rfl, rfl, rfl, ?_⟩
    · unfold incrementalSync
      rw [if_neg hcur, hhist]
      dsimp only
      rw [happ events hall]
      dsimp only
      rw [hss]
    · exact getSyncState_setSyncState hss

/-- A provider whose history feed contains only events of unknown kinds. -/
def unknownEventsProvider : Provider :=
  { listLabels := .ok []
    listMessages := fun _ _ => .ok ([], "")
    getMessage := fun _ => .error "boom"
    history := fun _ => .ok
      ([{ type := 7, messageID := "q", labelIDs := [] },
        { type := 42, messageID := "r", labelIDs := ["X"] }], 9) }

/-- Witness for C10: a batch of two unknown-kind events mutates nothing and
still advances the cursor. -/
theorem incrementalSync_skips_unknown_events_witness :
    applyEvent unknownEventsProvider "acc-1" cursorStore
        { type := 7, messageID := "q", labelIDs := [] } = (cursorStore, none) ∧
      ∃ st2, incrementalSync unknownEventsProvider "acc-1" 77 cursorStore = (st2, none) ∧
        st2.emails = cursorStore.emails ∧ st2.emailLabels = cursorStore.emailLabels ∧
        st2.labels = cursorStore.labels ∧
        getSyncState st2 "acc-1" = { accountID := "acc-1", historyID := 9, lastSync := 77 } := by
  constructor
  · exact (incrementalSync_skips_unknown_events unknownEventsProvider "acc-1" 77 cursorStore
      [{ type := 7, messageID := "q", labelIDs := [] },
        { type := 42, messageID := "r", labelIDs := ["X"] }] 9).1
      { type := 7, messageID := "q", labelIDs := [] }
      (by decide) (by decide) (by decide) (by decide)
  · exact (incrementalSync_skips_unknown_events unknownEventsProvider "acc-1" 77 cursorStore
      [{ type := 7, messageID := "q", labelIDs := [] },
        { type := 42, messageID := "r", labelIDs := ["X"] }] 9).2
      (by decide) (by decide) (by rfl) (by decide)

/-! ### C8: redelivery of a history batch -/

/-- Database well-formedness: the primary keys of `emails` and
`email_labels` hold. -/
def WF (st : Store) : Prop :=
  (st.emails.map (fun r => r.id)).Nodup ∧ st.emailLabels.Nodup

/-- Equality of stores up to row order of the `emails` and `email_labels`
tables (SQL tables are row sets). -/
def StoreEquiv (a b : Store) : Prop :=
  a.accounts = b.accounts ∧ a.emails.Perm b.emails ∧ a.emailLabels.Perm b.emailLabels ∧
    a.labels = b.labels ∧ a.syncStates = b.syncStates

/-- The event writes the `emails` row of the given message id. -/
def rowTouches (p : Provider) (ev : HistoryEvent) (mid : String) : Prop :=
  (ev.type = historyMessageAdded ∧
      ∃ m, p.getMessage ev.messageID = .ok m ∧ m.id = mid) ∨
    (ev.type = historyMessageDeleted ∧ ev.messageID = mid)

/-- The event writes the `email_labels` rows of the given message id. -/
def labelTouches (p : Provider) (ev : HistoryEvent) (mid : String) : Prop :=
  rowTouches p ev mid ∨
    ((ev.type = historyLabelsAdded ∨ ev.type = historyLabelsRemoved) ∧
      ∃ m, p.getMessage ev.messageID = .ok m ∧ m.id = mid)

theorem nodup_concat {α : Type} [DecidableEq α] {l : List α} {a : α}
    (hl : l.Nodup) (ha : a ∉ l) : (l ++ [a]).Nodup := by
  rw [List.nodup_append]
  refine ⟨hl, List.nodup_singleton a, ?_⟩
  intro b hb hb1
  rw [List.mem_singleton] at hb1
  subst hb1
  exact ha hb

theorem insertEmailLabels_ok_nodup {st st' : Store} {eid : String} {ls : List String}
    (hnd : st.emailLabels.Nodup) (h : insertEmailLabels st eid ls = .ok st') :
    st'.emailLabels.Nodup := by
  induction ls generalizing st with
  | nil =>
    cases h
    exact hnd
  | cons lid rest ih =>
    unfold insertEmailLabels insertEmailLabel at h
    by_cases hmem : (eid, lid) ∈ st.emailLabels
    · rw [if_pos hmem] at h
      cases h
    · rw [if_neg hmem] at h
      by_cases hrow : (st.emails.any (fun x => decide (x.id = eid))) = true
      · rw [if_pos hrow] at h
        exact ih (nodup_concat hnd hmem) h
      · rw [if_neg hrow] at h
        cases h

theorem upsertEmail_ok_WF {st st' : Store} {e : Email} {acct : String}
    (hwf : WF st) (h : upsertEmail st e acct = (st', none)) : WF st' := by
  obtain ⟨hem, hlab, -, -, -, -⟩ := upsertEmail_ok_spec h
  constructor
  · rw [hem]
    exact map_id_upsertRow st.emails (emailRowOf e acct) hwf.1
  · -- re-run the insert loop argument through the explicit shape
    unfold upsertEmail upsertEmailTx at h
    by_cases hacct : acct ∈ st.accounts
    · rw [if_pos hacct] at h
      dsimp only at h
      cases hins : insertEmailLabels
          (deleteEmailLabelsFor { st with emails := upsertRow st.emails (emailRowOf e acct) } e.id)
          e.id e.labels with
      | ok st2 =>
        rw [hins] at h
        simp only [Prod.mk.injEq] at h
        obtain ⟨h2, -⟩ := h
        subst h2
        exact insertEmailLabels_ok_nodup (List.Nodup.filter _ hwf.2) hins
      | error er =>
        rw [hins] at h
        simp at h
    · rw [if_neg hacct] at h
      simp at h

theorem deleteEmail_WF {st : Store} (hwf : WF st) (did : String) : WF (deleteEmail st did) := by
  constructor
  · unfold deleteEmail
    exact List.Nodup.sublist (List.Sublist.map _ (List.filter_sublist _)) hwf.1
  · exact List.Nodup.filter _ hwf.2

theorem setEmailLabels_ok_WF {st st' : Store} {eid : String} {ls : List String}
    (hwf : WF st) (h : setEmailLabels st eid ls = (st', none)) : WF st' := by
  obtain ⟨hem, -, -, -, -⟩ := setEmailLabels_ok_spec h
  constructor
  · rw [hem]
    exact hwf.1
  · unfold setEmailLabels setEmailLabelsTx at h
    cases hins : insertEmailLabels (deleteEmailLabelsFor st eid) eid ls with
    | ok st2 =>
      rw [hins] at h
      simp only [Prod.mk.injEq] at h
      obtain ⟨h2, -⟩ := h
      subst h2
      exact insertEmailLabels_ok_nodup (List.Nodup.filter _ hwf.2) hins
    | error er =>
      rw [hins] at h
      simp at h

theorem applyEvent_fst_WF (p : Provider) (acct : String) {st : Store} (hwf : WF st)
    (ev : HistoryEvent) : WF (applyEvent p acct st ev).1 := by
  unfold applyEvent
  by_cases h0 : ev.type = historyMessageAdded
  · rw [if_pos h0]
    cases p.getMessage ev.messageID with
    | error e => exact hwf
    | ok msg =>
      dsimp only
      cases hup : upsertEmail st msg acct with
      | mk st' res =>
        cases res with
        | none => exact upsertEmail_ok_WF hwf hup
        | some e =>
          have := upsertEmail_err_rollback hup
          subst this
          exact hwf
  · rw [if_neg h0]
    by_cases h1 : ev.type = historyMessageDeleted
    · rw [if_pos h1]
      exact deleteEmail_WF hwf ev.messageID
    · rw [if_neg h1]
      by_cases h2 : ev.type = historyLabelsAdded ∨ ev.type = historyLabelsRemoved
      · rw [if_pos h2]
        cases p.getMessage ev.messageID with
        | error e => exact hwf
        | ok msg =>
          dsimp only
          cases hset : setEmailLabels st msg.id msg.labels with
          | mk st' res =>
            cases res with
            | none => exact setEmailLabels_ok_WF hwf hset
            | some e =>
              have := setEmailLabels_err_rollback hset
              subst this
              exact hwf
      · rw [if_neg h2]
        exact hwf

theorem applyEvents_fst_WF (p : Provider) (acct : String) (evs : List HistoryEvent)
    {st : Store} (hwf : WF st) : WF (applyEvents p acct st evs).1 := by
  induction evs generalizing st with
  | nil => exact hwf
  | cons ev rest ih =>
    rw [applyEvents_cons]
    cases hev : applyEvent p acct st ev with
    | mk st' res =>
      have hwf' : WF st' := by
        have := applyEvent_fst_WF p acct hwf ev
        rw [hev] at this
        exact this
      cases res with
      | none => exact ih hwf'
      | some e => exact hwf'

theorem deleteEmail_rowsOf_self (st : Store) (did : String) :
    rowsOf (deleteEmail st did) did = [] := by
  unfold rowsOf deleteEmail
  rw [List.filter_filter, List.filter_eq_nil_iff]
  intro r _
  by_cases h : r.id = did <;> simp [h]

theorem deleteEmail_rowsOf_other (st : Store) (did mid : String) (hne : mid ≠ did) :
    rowsOf (deleteEmail st did) mid = rowsOf st mid := by
  unfold rowsOf deleteEmail
  rw [List.filter_filter]
  apply List.filter_congr
  intro r _
  by_cases h : r.id = mid
  · have hrd : ¬ r.id = did := by rw [h]; exact hne
    simp [h, hrd, hne]
  · simp [h]

theorem deleteEmail_pairsOf_self (st : Store) (did : String) :
    labelPairsOf (deleteEmail st did) did = [] := by
  unfold labelPairsOf deleteEmail
  rw [List.filter_filter, List.filter_eq_nil_iff]
  intro pr _
  by_cases h : pr.1 = did <;> simp [h]

theorem deleteEmail_pairsOf_other (st : Store) (did mid : String) (hne : mid ≠ did) :
    labelPairsOf (deleteEmail st did) mid = labelPairsOf st mid := by
  unfold labelPairsOf deleteEmail
  rw [List.filter_filter]
  apply List.filter_congr
  intro pr _
  by_cases h : pr.1 = mid
  · have hpd : ¬ pr.1 = did := by rw [h]; exact hne
    simp [h, hpd, hne]
  · simp [h]

theorem upsertEmail_ok_rowsOf_self {st st' : Store} {e : Email} {acct : String}
    (hnd : (st.emails.map (fun r => r.id)).Nodup)
    (h : upsertEmail st e acct = (st', none)) :
    rowsOf st' e.id = [emailRowOf e acct] := by
  unfold rowsOf
  rw [(upsertEmail_ok_spec h).1]
  exact filter_upsertRow_self st.emails (emailRowOf e acct) hnd

theorem upsertEmail_ok_rowsOf_other {st st' : Store} {e : Email} {acct : String}
    (mid : String) (hne : mid ≠ e.id)
    (h : upsertEmail st e acct = (st', none)) :
    rowsOf st' mid = rowsOf st mid := by
  unfold rowsOf
  rw [(upsertEmail_ok_spec h).1]
  exact filter_upsertRow_other st.emails (emailRowOf e acct) mid hne

theorem upsertEmail_ok_pairsOf_self {st st' : Store} {e : Email} {acct : String}
    (h : upsertEmail st e acct = (st', none)) :
    labelPairsOf st' e.id = e.labels.map (fun l => (e.id, l)) := by
  unfold labelPairsOf
  rw [(upsertEmail_ok_spec h).2.1]
  exact filter_pairs_replaced_self st.emailLabels e.id e.labels

theorem upsertEmail_ok_pairsOf_other {st st' : Store} {e : Email} {acct : String}
    (mid : String) (hne : mid ≠ e.id)
    (h : upsertEmail st e acct = (st', none)) :
    labelPairsOf st' mid = labelPairsOf st mid := by
  unfold labelPairsOf
  rw [(upsertEmail_ok_spec h).2.1]
  exact filter_pairs_replaced_other st.emailLabels e.id e.labels mid hne

theorem setEmailLabels_ok_pairsOf_self {st st' : Store} {eid : String} {ls : List String}
    (h : setEmailLabels st eid ls = (st', none)) :
    labelPairsOf st' eid = ls.map (fun l => (eid, l)) := by
  unfold labelPairsOf
  rw [(setEmailLabels_ok_spec h).2.1]
  exact filter_pairs_replaced_self st.emailLabels eid ls

theorem setEmailLabels_ok_pairsOf_other {st st' : Store} {eid : String} {ls : List String}
    (mid : String) (hne : mid ≠ eid)
    (h : setEmailLabels st eid ls = (st', none)) :
    labelPairsOf st' mid = labelPairsOf st mid := by
  unfold labelPairsOf
  rw [(setEmailLabels_ok_spec h).2.1]
  exact filter_pairs_replaced_other st.emailLabels eid ls mid hne

theorem applyEvent_ok_untouched (p : Provider) (acct : String) {st st' : Store}
    {ev : HistoryEvent} (h : applyEvent p acct st ev = (st', none)) :
    (∀ mid, ¬ rowTouches p ev mid → rowsOf st' mid = rowsOf st mid) ∧
      (∀ mid, ¬ labelTouches p ev mid → labelPairsOf st' mid = labelPairsOf st mid) := by
  unfold applyEvent at h
  by_cases h0 : ev.type = historyMessageAdded
  · rw [if_pos h0] at h
    cases hg : p.getMessage ev.messageID with
    | error e =>
      rw [hg] at h
      simp at h
    | ok msg =>
      rw [hg] at h
      constructor
      · intro mid hn
        have hne : mid ≠ msg.id := by
          intro hc
          exact hn (Or.inl ⟨h0, msg, hg, hc.symm⟩)
        exact upsertEmail_ok_rowsOf_other mid hne h
      · intro mid hn
        have hne : mid ≠ msg.id := by
          intro hc
          exact hn (Or.inl (Or.inl ⟨h0, msg, hg, hc.symm⟩))
        exact upsertEmail_ok_pairsOf_other mid hne h
  · rw [if_neg h0] at h
    by_cases h1 : ev.type = historyMessageDeleted
    · rw [if_pos h1] at h
      simp only [Prod.mk.injEq] at h
      obtain ⟨h2, -⟩ := h
      subst h2
      constructor
      · intro mid hn
        have hne : mid ≠ ev.messageID := by
          intro hc
          exact hn (Or.inr ⟨h1, hc.symm⟩)
        exact deleteEmail_rowsOf_other st ev.messageID mid hne
      · intro mid hn
        have hne : mid ≠ ev.messageID := by
          intro hc
          exact hn (Or.inl (Or.inr ⟨h1, hc.symm⟩))
        exact deleteEmail_pairsOf_other st ev.messageID mid hne
    · rw [if_neg h1] at h
      by_cases h2 : ev.type = historyLabelsAdded ∨ ev.type = historyLabelsRemoved
      · rw [if_pos h2] at h
        cases hg : p.getMessage ev.messageID with
        | error e =>
          rw [hg] at h
          simp at h
        | ok msg =>
          rw [hg] at h
          constructor
          · intro mid _
            unfold rowsOf
            rw [(setEmailLabels_ok_spec h).1]
          · intro mid hn
            have hne : mid ≠ msg.id := by
              intro hc
              exact hn (Or.inr ⟨h2, msg, hg, hc.symm⟩)
            exact setEmailLabels_ok_pairsOf_other mid hne h
      · rw [if_neg h2] at h
        simp only [Prod.mk.injEq] at h
        obtain ⟨h3, -⟩ := h
        subst h3
        exact ⟨fun _ _ => rfl, fun _ _ => rfl⟩

theorem applyEvents_ok_untouched (p : Provider) (acct : String)
    (evs : List HistoryEvent) {st st' : Store}
    (h : applyEvents p acct st evs = (st', none)) :
    (∀ mid, (∀ ev ∈ evs, ¬ rowTouches p ev mid) → rowsOf st' mid = rowsOf st mid) ∧
      (∀ mid, (∀ ev ∈ evs, ¬ labelTouches p ev mid) →
        labelPairsOf st' mid = labelPairsOf st mid) := by
  induction evs generalizing st with
  | nil =>
    cases h
    exact ⟨fun _ _ => rfl, fun _ _ => rfl⟩
  | cons ev rest ih =>
    rw [applyEvents_cons] at h
    cases hev : applyEvent p acct st ev with
    | mk st1 res =>
      rw [hev] at h
      cases res with
      | some e => simp at h
      | none =>
        dsimp only at h
        obtain ⟨hr1, hl1⟩ := applyEvent_ok_untouched p acct hev
        obtain ⟨hr2, hl2⟩ := ih h
        constructor
        · intro mid hall
          rw [hr2 mid (fun e he => hall e (List.mem_cons_of_mem ev he)),
            hr1 mid (hall ev (List.mem_cons_self ev rest))]
        · intro mid hall
          rw [hl2 mid (fun e he => hall e (List.mem_cons_of_mem ev he)),
            hl1 mid (hall ev (List.mem_cons_self ev rest))]

theorem applyEvent_added_ok {p : Provider} {acct : String} {st st' : Store}
    {ev : HistoryEvent} {msg : Email} (h0 : ev.type = historyMessageAdded)
    (hg : p.getMessage ev.messageID = .ok msg)
    (h : applyEvent p acct st ev = (st', none)) :
    upsertEmail st msg acct = (st', none) := by
  unfold applyEvent at h
  rw [if_pos h0, hg] at h
  exact h

theorem applyEvent_deleted_ok {p : Provider} {acct : String} {st st' : Store}
    {ev : HistoryEvent} (h1 : ev.type = historyMessageDeleted)
    (h : applyEvent p acct st ev = (st', none)) :
    st' = deleteEmail st ev.messageID := by
  unfold applyEvent at h
  rw [if_neg (by rw [h1]; decide), if_pos h1] at h
  simp only [Prod.mk.injEq] at h
  exact h.1.symm

theorem applyEvent_labels_ok {p : Provider} {acct : String} {st st' : Store}
    {ev : HistoryEvent} {msg : Email}
    (h2 : ev.type = historyLabelsAdded ∨ ev.type = historyLabelsRemoved)
    (hg : p.getMessage ev.messageID = .ok msg)
    (h : applyEvent p acct st ev = (st', none)) :
    setEmailLabels st msg.id msg.labels = (st', none) := by
  unfold applyEvent at h
  have hn0 : ¬ ev.type = historyMessageAdded := by
    rcases h2 with hc | hc <;> rw [hc] <;> decide
  have hn1 : ¬ ev.type = historyMessageDeleted := by
    rcases h2 with hc | hc <;> rw [hc] <;> decide
  rw [if_neg hn0, if_neg hn1, if_pos h2, hg] at h
  exact h

theorem applyEvent_labels_needs_message {p : Provider} {acct : String} {st st' : Store}
    {ev : HistoryEvent}
    (h2 : ev.type = historyLabelsAdded ∨ ev.type = historyLabelsRemoved)
    (h : applyEvent p acct st ev = (st', none)) :
    ∃ msg, p.getMessage ev.messageID = .ok msg := by
  unfold applyEvent at h
  have hn0 : ¬ ev.type = historyMessageAdded := by
    rcases h2 with hc | hc <;> rw [hc] <;> decide
  have hn1 : ¬ ev.type = historyMessageDeleted := by
    rcases h2 with hc | hc <;> rw [hc] <;> decide
  rw [if_neg hn0, if_neg hn1, if_pos h2] at h
  cases hg : p.getMessage ev.messageID with
  | error e =>
    rw [hg] at h
    simp at h
  | ok msg => exact ⟨msg, rfl⟩

theorem applyEvent_added_needs_message {p : Provider} {acct : String} {st st' : Store}
    {ev : HistoryEvent} (h0 : ev.type = historyMessageAdded)
    (h : applyEvent p acct st ev = (st', none)) :
    ∃ msg, p.getMessage ev.messageID = .ok msg := by
  unfold applyEvent at h
  rw [if_pos h0] at h
  cases hg : p.getMessage ev.messageID with
  | error e =>
    rw [hg] at h
    simp at h
  | ok msg => exact ⟨msg, rfl⟩

theorem applyEvents_agree (p : Provider) (acct : String) :
    ∀ (evs : List HistoryEvent) (sA sB sA' sB' : Store),
      WF sA → WF sB →
      (∀ mid, (∀ ev ∈ evs, ¬ rowTouches p ev mid) → rowsOf sA mid = rowsOf sB mid) →
      (∀ mid, (∀ ev ∈ evs, ¬ labelTouches p ev mid) →
        labelPairsOf sA mid = labelPairsOf sB mid) →
      applyEvents p acct sA evs = (sA', none) →
      applyEvents p acct sB evs = (sB', none) →
      (∀ mid, rowsOf sA' mid = rowsOf sB' mid) ∧
        (∀ mid, labelPairsOf sA' mid = labelPairsOf sB' mid) := by
  intro evs
  induction evs with
  | nil =>
    intro sA sB sA' sB' _ _ hrows hpairs hA hB
    cases hA
    cases hB
    exact ⟨fun mid => hrows mid (by simp), fun mid => hpairs mid (by simp)⟩
  | cons ev rest ih =>
    intro sA sB sA' sB' hwfA hwfB hrows hpairs hA hB
    rw [applyEvents_cons] at hA hB
    cases hevA : applyEvent p acct sA ev with
    | mk sA1 resA =>
      rw [hevA] at hA
      cases resA with
      | some e => simp at hA
      | none =>
        dsimp only at hA
        cases hevB : applyEvent p acct sB ev with
        | mk sB1 resB =>
          rw [hevB] at hB
          cases resB with
          | some e => simp at hB
          | none =>
            dsimp only at hB
            have hwfA1 : WF sA1 := by
              have := applyEvent_fst_WF p acct hwfA ev
              rw [hevA] at this
              exact this
            have hwfB1 : WF sB1 := by
              have := applyEvent_fst_WF p acct hwfB ev
              rw [hevB] at this
              exact this
            refine ih sA1 sB1 sA' sB' hwfA1 hwfB1 ?_ ?_ hA hB
            · intro mid hallrest
              by_cases hcase : rowTouches p ev mid
              · rcases hcase with ⟨h0, m, hg, hmid⟩ | ⟨h1, hmid⟩
                · have hupA := applyEvent_added_ok h0 hg hevA
                  have hupB := applyEvent_added_ok h0 hg hevB
                  rw [← hmid]
                  rw [upsertEmail_ok_rowsOf_self hwfA.1 hupA,
                    upsertEmail_ok_rowsOf_self hwfB.1 hupB]
                · have hdA := applyEvent_deleted_ok h1 hevA
                  have hdB := applyEvent_deleted_ok h1 hevB
                  rw [← hmid, hdA, hdB, deleteEmail_rowsOf_self, deleteEmail_rowsOf_self]
              · have hall : ∀ e' ∈ ev :: rest, ¬ rowTouches p e' mid := by
                  intro e' he'
                  rcases List.mem_cons.1 he' with he1 | he2
                  · subst he1
                    exact hcase
                  · exact hallrest e' he2
                rw [(applyEvent_ok_untouched p acct hevA).1 mid hcase,
                  (applyEvent_ok_untouched p acct hevB).1 mid hcase]
                exact hrows mid hall
            · intro mid hallrest
              by_cases hcase : labelTouches p ev mid
              · rcases hcase with (⟨h0, m, hg, hmid⟩ | ⟨h1, hmid⟩) | ⟨h2, m, hg, hmid⟩
                · have hupA := applyEvent_added_ok h0 hg hevA
                  have hupB := applyEvent_added_ok h0 hg hevB
                  rw [← hmid]
                  rw [upsertEmail_ok_pairsOf_self hupA, upsertEmail_ok_pairsOf_self hupB]
                · have hdA := applyEvent_deleted_ok h1 hevA
                  have hdB := applyEvent_deleted_ok h1 hevB
                  rw [← hmid, hdA, hdB, deleteEmail_pairsOf_self, deleteEmail_pairsOf_self]
                · have hsetA := applyEvent_labels_ok h2 hg hevA
                  have hsetB := applyEvent_labels_ok h2 hg hevB
                  rw [← hmid]
                  rw [setEmailLabels_ok_pairsOf_self hsetA, setEmailLabels_ok_pairsOf_self hsetB]
              · have hall : ∀ e' ∈ ev :: rest, ¬ labelTouches p e' mid := by
                  intro e' he'
                  rcases List.mem_cons.1 he' with he1 | he2
                  · subst he1
                    exact hcase
                  · exact hallrest e' he2
                rw [(applyEvent_ok_untouched p acct hevA).2 mid hcase,
                  (applyEvent_ok_untouched p acct hevB).2 mid hcase]
                exact hpairs mid hall

theorem emails_perm_of_rowsOf_eq {sA sB : Store}
    (h : ∀ mid, rowsOf sA mid = rowsOf sB mid) : sA.emails.Perm sB.emails := by
  rw [List.perm_iff_count]
  intro r
  have h1 := congrArg (List.count r) (h r.id)
  unfold rowsOf at h1
  rwa [List.count_filter (by simp), List.count_filter (by simp)] at h1

theorem pairs_perm_of_labelPairsOf_eq {sA sB : Store}
    (h : ∀ mid, labelPairsOf sA mid = labelPairsOf sB mid) :
    sA.emailLabels.Perm sB.emailLabels := by
  rw [List.perm_iff_count]
  intro pr
  have h1 := congrArg
    (fun l => @List.count (String × String) instBEqOfDecidableEq pr l) (h pr.1)
  unfold labelPairsOf at h1
  dsimp only at h1
  rw [@List.count_filter _ instBEqOfDecidableEq instLawfulBEq _ _ _ (by simp),
    @List.count_filter _ instBEqOfDecidableEq instLawfulBEq _ _ _ (by simp)] at h1
  exact h1

theorem setSyncState_ok_spec {st st' : Store} {s : SyncState}
    (h : setSyncState st s = .ok st') :
    st' = { st with syncStates := upsertSyncRow st.syncStates s } ∧
      s.accountID ∈ st.accounts := by
  unfold setSyncState at h
  by_cases hacct : s.accountID ∈ st.accounts
  · rw [if_pos hacct] at h
    cases h
    exact ⟨rfl, hacct⟩
  · rw [if_neg hacct] at h
    cases h

theorem incrementalSync_ok_unpack {p : Provider} {acct : String} {now : Int}
    {st stout : Store} {events : List HistoryEvent} {nh : Nat}
    (hcur : (getSyncState st acct).historyID ≠ 0)
    (hh : p.history (getSyncState st acct).historyID = .ok (events, nh))
    (hrun : incrementalSync p acct now st = (stout, none)) :
    ∃ sA, applyEvents p acct st events = (sA, none) ∧
      setSyncState sA { accountID := acct, historyID := nh, lastSync := now } = .ok stout := by
  unfold incrementalSync at hrun
  rw [if_neg hcur, hh] at hrun
  dsimp only at hrun
  cases happ : applyEvents p acct st events with
  | mk sA res =>
    rw [happ] at hrun
    cases res with
    | some e => simp at hrun
    | none =>
      dsimp only at hrun
      cases hss : setSyncState sA { accountID := acct, historyID := nh, lastSync := now } with
      | ok st'' =>
        rw [hss] at hrun
        simp only [Prod.mk.injEq] at hrun
        obtain ⟨h1, -⟩ := hrun
        subst h1
        exact ⟨sA, rfl, hss⟩
      | error e =>
        rw [hss] at hrun
        simp at hrun

/-- C8 (amended): running `IncrementalSync` twice with the same redelivered
history batch leaves the Store in the same final state as running it once,
provided the second pass also applies every event without error (a label
event whose message a later event of the same batch deleted makes the
second pass fail and can leave the store changed). -/
theorem incrementalSync_redelivery_idempotent
    (p : Provider) (acct : String) (now : Int) (st st1 st2 : Store)
    (events : List HistoryEvent) (nh : Nat)
    (hwf : WF st)
    (hcur : (getSyncState st acct).historyID ≠ 0)
    (hh1 : p.history (getSyncState st acct).historyID = .ok (events, nh))
    (hnh : nh ≠ 0)
    (hh2 : p.history nh = .ok (events, nh))
    (hrun1 : incrementalSync p acct now st = (st1, none))
    (hrun2 : incrementalSync p acct now st1 = (st2, none)) :
    StoreEquiv st2 st1 := by
  obtain ⟨sA, happA, hssA⟩ := incrementalSync_ok_unpack hcur hh1 hrun1
  obtain ⟨hst1, hacctA⟩ := setSyncState_ok_spec hssA
  have hgs1 : getSyncState st1 acct = { accountID := acct, historyID := nh, lastSync := now } :=
    getSyncState_setSyncState hssA
  have hcur1 : (getSyncState st1 acct).historyID ≠ 0 := by
    rw [hgs1]
    exact hnh
  have hh1b : p.history (getSyncState st1 acct).historyID = .ok (events, nh) := by
    rw [hgs1]
    exact hh2
  obtain ⟨sB, happB, hssB⟩ := incrementalSync_ok_unpack hcur1 hh1b hrun2
  obtain ⟨hst2, hacctB⟩ := setSyncState_ok_spec hssB
  have hfrA := applyEvents_frame p acct events st
  rw [happA] at hfrA
  have hfrB := applyEvents_frame p acct events st1
  rw [happB] at hfrB
  have hwfA : WF sA := by
    have := applyEvents_fst_WF p acct events hwf
    rw [happA] at this
    exact this
  have hwf1 : WF st1 := by
    rw [hst1]
    exact hwfA
  have huA := applyEvents_ok_untouched p acct events happA
  have hrowsPre : ∀ mid, (∀ ev ∈ events, ¬ rowTouches p ev mid) →
      rowsOf st mid = rowsOf st1 mid := by
    intro mid hall
    have h1 : rowsOf st1 mid = rowsOf sA mid := by
      rw [hst1]
      rfl
    rw [h1, huA.1 mid hall]
  have hpairsPre : ∀ mid, (∀ ev ∈ events, ¬ labelTouches p ev mid) →
      labelPairsOf st mid = labelPairsOf st1 mid := by
    intro mid hall
    have h1 : labelPairsOf st1 mid = labelPairsOf sA mid := by
      rw [hst1]
      rfl
    rw [h1, huA.2 mid hall]
  obtain ⟨hrowsAB, hpairsAB⟩ :=
    applyEvents_agree p acct events st st1 sA sB hwf hwf1 hrowsPre hpairsPre happA happB
  have hemails : st2.emails.Perm st1.emails := by
    have h1 : st2.emails = sB.emails := by rw [hst2]
    have h2 : st1.emails = sA.emails := by rw [hst1]
    rw [h1, h2]
    exact emails_perm_of_rowsOf_eq (fun mid => (hrowsAB mid).symm)
  have hpairs : st2.emailLabels.Perm st1.emailLabels := by
    have h1 : st2.emailLabels = sB.emailLabels := by rw [hst2]
    have h2 : st1.emailLabels = sA.emailLabels := by rw [hst1]
    rw [h1, h2]
    exact pairs_perm_of_labelPairsOf_eq (fun mid => (hpairsAB mid).symm)
  refine ⟨?_, hemails, hpairs, ?_, ?_⟩
  · have h1 : st2.accounts = sB.accounts := by rw [hst2]
    rw [h1, hfrB.1]
  · have h1 : st2.labels = sB.labels := by rw [hst2]
    rw [h1, hfrB.2.1]
  · have h1 : st2.syncStates =
        upsertSyncRow sB.syncStates { accountID := acct, historyID := nh, lastSync := now } := by
      rw [hst2]
    have h2 : sB.syncStates = st1.syncStates := hfrB.2.2
    have h3 : st1.syncStates =
        upsertSyncRow sA.syncStates { accountID := acct, historyID := nh, lastSync := now } := by
      rw [hst1]
    rw [h1, h2, h3, upsertSyncRow_idem, ← h3]

/-- A remote message with no labels, used by the redelivery counterexample. -/
def cxMsgM : Email :=
  { id := "m", threadID := "t", fromAddress := { name := "", email := "m@x" }
    toAddrs := [], ccAddrs := [], subject := "m", body := "", bodyHTML := ""
    date := 1, labels := [], isRead := false, isStarred := false, inReplyTo := "" }

/-- A remote message with one label, used by the redelivery counterexample. -/
def cxMsgN : Email :=
  { id := "n", threadID := "t", fromAddress := { name := "", email := "n@x" }
    toAddrs := [], ccAddrs := [], subject := "n", body := "", bodyHTML := ""
    date := 1, labels := ["L"], isRead := false, isStarred := false, inReplyTo := "" }

/-- A store holding message n and a real cursor. -/
def cxStore8 : Store :=
  { accounts := ["acc-1"]
    emails :=
      [ { id := "n", accountID := "acc-1", threadID := "t",
          fromAddr := "n@x", fromName := "", toAddrs := [], ccAddrs := [],
          subject := "n", bodyText := "", bodyHTML := "", date := 1,
          isRead := false, isStarred := false, inReplyTo := "" } ]
    emailLabels := []
    labels := []
    syncStates := [{ accountID := "acc-1", historyID := 5, lastSync := 0 }] }

/-- A provider redelivering the batch [added m, labels n, deleted n,
deleted m] at every cursor. -/
def cxProvider8 : Provider :=
  { listLabels := .ok []
    listMessages := fun _ _ => .ok ([], "")
    getMessage := fun mid =>
      if mid = "m" then .ok cxMsgM else if mid = "n" then .ok cxMsgN else .error "404"
    history := fun _ => .ok
      ([{ type := 0, messageID := "m", labelIDs := [] },
        { type := 2, messageID := "n", labelIDs := ["L"] },
        { type := 1, messageID := "n", labelIDs := [] },
        { type := 1, messageID := "m", labelIDs := [] }], 9) }

/-- C8 counterexample: the first pass over the redelivered batch succeeds
and ends with an empty mailbox; the second pass re-adds message m, then
fails its label event (message n was deleted), leaving m behind — the
final store after running twice differs (even as a row set) from the store
after running once. -/
theorem incrementalSync_redelivery_counterexample :
    ¬ ((incrementalSync cxProvider8 "acc-1" 77
          (incrementalSync cxProvider8 "acc-1" 77 cxStore8).1).1.emails.Perm
        (incrementalSync cxProvider8 "acc-1" 77 cxStore8).1.emails) ∧
      (incrementalSync cxProvider8 "acc-1" 77 cxStore8).2 = none := by
  decide

/-- Witness for the amended C8: a redelivered single-deletion batch applied
twice leaves the store in the same final state as applied once. -/
theorem incrementalSync_redelivery_idempotent_witness :
    StoreEquiv
      (incrementalSync deleteOnlyProvider "acc-1" 77
        (incrementalSync deleteOnlyProvider "acc-1" 77 cursorStore).1).1
      (incrementalSync deleteOnlyProvider "acc-1" 77 cursorStore).1 :=
  incrementalSync_redelivery_idempotent deleteOnlyProvider "acc-1" 77 cursorStore
    (incrementalSync deleteOnlyProvider "acc-1" 77 cursorStore).1
    (incrementalSync deleteOnlyProvider "acc-1" 77
      (incrementalSync deleteOnlyProvider "acc-1" 77 cursorStore).1).1
    [{ type := 1, messageID := "zz", labelIDs := [] }] 9
    ⟨by decide, by decide⟩ (by decide) (by rfl) (by decide) (by rfl) (by decide) (by decide)
